import Mathlib

/-!
Verification of the smahoblog ZOL fetcher (src/smahoblog_automator/fetchers/zol_fetcher.py).

The Python code is shallowly embedded: strings are Lean String values
manipulated through explicit List Char computations mirroring the Python
string operations, the BeautifulSoup document is an explicit HTML node tree,
CSS selectors are represented structurally, and the network layer is an
environment supplying the outcome of each HTTP attempt.  Everything is
computable so concrete documents can be evaluated inside proofs.
-/

namespace ZolSpec

/-! ### Python string primitives -/

/-- Whitespace set of Python str.strip / str.split (ASCII part). -/
def pySpace (c : Char) : Bool :=
  c = ' ' || c = '\t' || c = '\n' || c = '\r' || c = '\x0b' || c = '\x0c'

/-- Substring test on character lists: models the Python operator x in s. -/
def issub (pat : List Char) : List Char → Bool
  | [] => pat.isEmpty
  | c :: rest => pat.isPrefixOf (c :: rest) || issub pat rest

/-- Python x in s on strings. -/
def pyIn (pat s : String) : Bool := issub pat.data s.data

/-- Python str.lower (ASCII; the URLs and tokens involved are ASCII). -/
def pyLower (s : String) : String := ⟨s.data.map Char.toLower⟩

/-- Python str.startswith. -/
def pyStartsWith (s pre : String) : Bool := pre.data.isPrefixOf s.data

/-- Python str.endswith. -/
def pyEndsWith (s suf : String) : Bool := suf.data.isSuffixOf s.data

/-- Python str.strip() with no argument (ASCII whitespace). -/
def pyStrip (s : String) : String :=
  ⟨((s.data.dropWhile pySpace).reverse.dropWhile pySpace).reverse⟩

/-- One fueled pass of Python str.replace: replaces every non-overlapping
leftmost occurrence of pat.  Fuel is the remaining input length, which always
suffices because each step consumes at least one character. -/
def repGo (pat rep : List Char) : Nat → List Char → List Char
  | 0, s => s
  | _ + 1, [] => []
  | fuel + 1, c :: rest =>
    if pat.isPrefixOf (c :: rest) then
      rep ++ repGo pat rep fuel (List.drop pat.length (c :: rest))
    else
      c :: repGo pat rep fuel rest

/-- Python str.replace (all occurrences, for a non-empty pattern, which is the
only way the source uses it). -/
def pyReplace (s pat rep : String) : String :=
  ⟨repGo pat.data rep.data s.data.length s.data⟩

/-- Python s.split(sep)[0] for a one-character separator: the text before the
first occurrence (or the whole string when the separator is absent). -/
def pySplitHead (sep : Char) (s : String) : String :=
  ⟨s.data.takeWhile (fun c => c ≠ sep)⟩

/-- The text strictly after the first occurrence of pat in s, or none when pat
does not occur.  Helper for the model of str.split with a long separator. -/
def afterFirst (pat : List Char) : List Char → Option (List Char)
  | [] => if pat.isEmpty then some [] else none
  | c :: rest =>
    if pat.isPrefixOf (c :: rest) then some (List.drop pat.length (c :: rest))
    else afterFirst pat rest

/-- The text before the first occurrence of pat in s (all of s when absent). -/
def beforeFirst (pat : List Char) : List Char → List Char
  | [] => []
  | c :: rest =>
    if pat.isPrefixOf (c :: rest) then []
    else c :: beforeFirst pat rest

/-- Python s.split(sep)[1] when sep occurs in s: the segment between the first
occurrence of sep and the following occurrence (or the end of the string). -/
def pySplitSecond (sep s : String) : String :=
  match afterFirst sep.data s.data with
  | some rest => ⟨beforeFirst sep.data rest⟩
  | none => ""

/-- Numeric value of a digit run. -/
def digitsVal (cs : List Char) : Nat := cs.foldl (fun a c => a * 10 + (c.toNat - 48)) 0

/-- Python int(str): optional surrounding whitespace and sign followed by a
non-empty digit run; anything else raises ValueError, modelled as none.
(Digit-group underscores accepted by Python are not modelled; the source
treats any failure identically via an except clause.) -/
def pyInt (s : String) : Option Int :=
  let t := (s.data.dropWhile pySpace).reverse.dropWhile pySpace |>.reverse
  match t with
  | '-' :: ds => if ds ≠ [] && ds.all Char.isDigit then some (-(digitsVal ds : Int)) else none
  | '+' :: ds => if ds ≠ [] && ds.all Char.isDigit then some ((digitsVal ds : Int)) else none
  | ds => if ds ≠ [] && ds.all Char.isDigit then some ((digitsVal ds : Int)) else none

/-- Percent-decoding step of urllib.parse.unquote, byte-wise.  Multi-byte
UTF-8 sequences are decoded to the corresponding raw byte characters; the
URLs the source decodes this way are ASCII. -/
def hexVal (c : Char) : Option Nat :=
  if '0' ≤ c ∧ c ≤ '9' then some (c.toNat - 48)
  else if 'a' ≤ c ∧ c ≤ 'f' then some (c.toNat - 87)
  else if 'A' ≤ c ∧ c ≤ 'F' then some (c.toNat - 55)
  else none

/-- urllib.parse.unquote, byte-wise model. -/
def unquoteGo : List Char → List Char
  | [] => []
  | '%' :: a :: b :: rest =>
    match hexVal a, hexVal b with
    | some ha, some hb => Char.ofNat (ha * 16 + hb) :: unquoteGo rest
    | _, _ => '%' :: unquoteGo (a :: b :: rest)
  | c :: rest => c :: unquoteGo rest

/-- urllib.parse.unquote on strings. -/
def pyUnquote (s : String) : String := ⟨unquoteGo s.data⟩

/-- Characters allowed in a URL scheme after the leading letter. -/
def schemeChar (c : Char) : Bool := c.isAlpha || c.isDigit || c = '+' || c = '-' || c = '.'

/-- Scans scheme characters until a colon. -/
def goScheme : List Char → Bool
  | [] => false
  | c :: rest => if c = ':' then true else schemeChar c && goScheme rest

/-- Whether a character list begins with a URL scheme (letter, then scheme
characters, then a colon): the syntactic absoluteness notion of RFC 3986. -/
def hasSchemeL : List Char → Bool
  | [] => false
  | c :: rest => c.isAlpha && goScheme rest

/-- Whether a URL string is syntactically absolute (carries a scheme). -/
def hasScheme (s : String) : Bool := hasSchemeL s.data

/-! ### Regular-expression models

The source uses four concrete regular expressions; each is modelled by a
dedicated matcher.  All the patterns are deterministic under greedy matching
(a digit run can never be shortened to let the following literal match), so
the scanners below implement exactly the Python match semantics. -/

/-- Drops one optional literal character, as the regex piece c? does. -/
def dropOpt (c : Char) : List Char → List Char
  | [] => []
  | x :: rest => if x = c then rest else x :: rest

/-- Attempts re pattern [st]_?s?(\d+)x(\d+) at the head of the list,
returning the two captured numbers. -/
def matchSizeAt : List Char → Option (Nat × Nat)
  | [] => none
  | c :: rest =>
    if c = 's' || c = 't' then
      let r1 := dropOpt '_' rest
      let r2 := dropOpt 's' r1
      let w := r2.takeWhile Char.isDigit
      let r3 := r2.dropWhile Char.isDigit
      if w ≠ [] then
        match r3 with
        | 'x' :: r4 =>
          let h := r4.takeWhile Char.isDigit
          if h ≠ [] then some (digitsVal w, digitsVal h) else none
        | _ => none
      else none
    else none

/-- re.search of [st]_?s?(\d+)x(\d+): leftmost match. -/
def findSize : List Char → Option (Nat × Nat)
  | [] => none
  | c :: rest =>
    match matchSizeAt (c :: rest) with
    | some p => some p
    | none => findSize rest

/-- Attempts re pattern t_s\d+x\d+ at the head of the list, returning the
length of the match. -/
def matchTsTok (cs : List Char) : Option Nat :=
  if "t_s".data.isPrefixOf cs then
    let r := cs.drop 3
    let d1 := r.takeWhile Char.isDigit
    let r1 := r.dropWhile Char.isDigit
    if d1 ≠ [] then
      match r1 with
      | 'x' :: r2 =>
        let d2 := r2.takeWhile Char.isDigit
        if d2 ≠ [] then some (3 + d1.length + 1 + d2.length) else none
      | _ => none
    else none
  else none

/-- Whether the list contains a match of t_s\d+x\d+ anywhere. -/
def hasTsTok : List Char → Bool
  | [] => false
  | c :: rest => (matchTsTok (c :: rest)).isSome || hasTsTok rest

/-- Fueled scanner for re.sub of t_s\d+x\d+: replaces every non-overlapping
leftmost match by rep. -/
def subTsGo (rep : List Char) : Nat → List Char → List Char
  | 0, s => s
  | _ + 1, [] => []
  | fuel + 1, c :: rest =>
    match matchTsTok (c :: rest) with
    | some n => rep ++ subTsGo rep fuel (List.drop n (c :: rest))
    | none => c :: subTsGo rep fuel rest

/-- re.sub of t_s\d+x\d+ with a literal replacement, on strings. -/
def subTs (rep src : String) : String := ⟨subTsGo rep.data src.data.length src.data⟩

/-- Terminator test for the lazy group of the background-image regex:
the group ends right before an optional quote followed by a closing paren. -/
def bgTermLen : List Char → Option Nat
  | ')' :: _ => some 0
  | '\'' :: ')' :: _ => some 1
  | '"' :: ')' :: _ => some 1
  | _ => none

/-- Collects the lazy group (.*?) of the background-image regex: the shortest
prefix after which the optional closing quote and the paren match. -/
def bgBody : List Char → Option (List Char)
  | [] => none
  | c :: rest =>
    match bgTermLen (c :: rest) with
    | some _ => some []
    | none => (bgBody rest).map (fun b => c :: b)

/-- Attempts the regex background-image:\s*url\([quote]?(.*?)[quote]?\) at the
head of the list, returning the captured URL text. -/
def bgMatchAt (cs : List Char) : Option (List Char) :=
  if "background-image:".data.isPrefixOf cs then
    let r1 := (cs.drop 17).dropWhile pySpace
    if "url(".data.isPrefixOf r1 then
      let r2 := r1.drop 4
      let r3 := match r2 with
        | '\'' :: t => t
        | '"' :: t => t
        | t => t
      bgBody r3
    else none
  else none

/-- re.search of the background-image pattern: leftmost match. -/
def bgSearch : List Char → Option (List Char)
  | [] => none
  | c :: rest =>
    match bgMatchAt (c :: rest) with
    | some b => some b
    | none => bgSearch rest

/-- The image-extension alternation of the script regex, tried in the order
written in the source (jpg before jpeg). -/
def extAlt (cs : List Char) : Option (String × Nat) :=
  if "jpg".data.isPrefixOf cs then some ("jpg", 3)
  else if "jpeg".data.isPrefixOf cs then some ("jpeg", 4)
  else if "png".data.isPrefixOf cs then some ("png", 3)
  else if "webp".data.isPrefixOf cs then some ("webp", 4)
  else none

/-- A character the body classes [^\s"\x27] of the script regex accept. -/
def urlBodyChar (c : Char) : Bool := !(pySpace c || c = '"' || c = '\'')

/-- Lazy body of the script regex: consumes at least one body character, then
stops at the earliest position where a dot and an extension follow.  Returns
the extension group and the total length consumed including the dot and the
extension. -/
def scriptBody : Nat → List Char → Option (String × Nat)
  | 0, _ => none
  | _ + 1, [] => none
  | fuel + 1, c :: rest =>
    if urlBodyChar c then
      match rest with
      | '.' :: r2 =>
        match extAlt r2 with
        | some (ext, n) => some (ext, 1 + 1 + n)
        | none => (scriptBody fuel rest).map (fun (e, n) => (e, n + 1))
      | _ => (scriptBody fuel rest).map (fun (e, n) => (e, n + 1))
    else none

/-- Attempts the script-image regex (https?:)?//[^\s"\x27]+?\.(ext)[^\s"\x27]*
at the head, returning the two groups (scheme, extension) and the match
length. -/
def scriptMatchAt (cs : List Char) : Option (String × String × Nat) :=
  let sch : Option (String × Nat) :=
    if "https://".data.isPrefixOf cs then some ("https:", 8)
    else if "http://".data.isPrefixOf cs then some ("http:", 7)
    else if "//".data.isPrefixOf cs then some ("", 2)
    else none
  match sch with
  | none => none
  | some (g1, k) =>
    match scriptBody (cs.length) (cs.drop k) with
    | some (ext, n) =>
      let tailLen := ((cs.drop (k + n)).takeWhile urlBodyChar).length
      some (g1, ext, k + n + tailLen)
    | none => none

/-- Fueled re.findall of the script-image regex: non-overlapping matches left
to right, returning the group pairs. -/
def scriptFindGo : Nat → List Char → List (String × String)
  | 0, _ => []
  | _ + 1, [] => []
  | fuel + 1, c :: rest =>
    match scriptMatchAt (c :: rest) with
    | some (g1, g2, n) => (g1, g2) :: scriptFindGo fuel (List.drop n (c :: rest))
    | none => scriptFindGo fuel rest

/-- re.findall of the script-image regex on a string: the list of captured
group tuples, exactly what the Python loop iterates over. -/
def scriptFindAll (s : String) : List (String × String) := scriptFindGo s.data.length s.data

/-! ### Image classifier (pure URL predicates of ZolFetcher) -/

/-- Pattern table of _is_high_quality_image: size_patterns. -/
def size_patterns : List String :=
  ["t_s2000x", "t_s1000x", "t_s800x", "t_s600x",
   "s240x", "s180x", "s300x", "s800x", "s600x",
   "origin-img", "big-img", "large"]

/-- Pattern table of _is_high_quality_image: aspect_ratio_patterns. -/
def aspect_ratio_patterns : List String :=
  ["x150c", "x180c", "c2/", "c4/", "c8/",
   "s50x50", "s60x60", "s80x80", "s100x100", "s120x120", "s150x150", "s180x180"]

/-- Pattern table of _is_high_quality_image: small_size_patterns. -/
def hq_small_size_patterns : List String :=
  ["s50x", "s60x", "s100x", "_50x", "_60x", "_80x", "_100x", "icon"]

/-- Pattern table of _is_high_quality_image: low_quality_patterns. -/
def low_quality_patterns : List String :=
  ["banner", "icon", "btn", "nav", "logo", "avatar", "ico-", "ico_", "ico."]

/-- The near-square test of _is_high_quality_image: ratio = max/min lies in
[0.9, 1.1] and width < 200.  Since ratio is at least 1 the lower bound is
automatic, and the upper bound max/min <= 1.1 is the exact rational
comparison 10*max <= 11*min (both dimensions are at least 120 whenever this
line is reached, so the division is well defined and far from the
floating-point rounding boundary). -/
def hqNearSquare (w h : Nat) : Bool := 10 * max w h ≤ 11 * min w h && w < 200

/-- ZolFetcher._is_high_quality_image. -/
def _is_high_quality_image (url : String) : Bool :=
  if aspect_ratio_patterns.any (fun p => pyIn p url) then false
  else if hq_small_size_patterns.any (fun p => pyIn p url) then false
  else if low_quality_patterns.any (fun p => pyIn p (pyLower url)) then false
  else if pyIn "ChMk" url || pyIn "/M00/" url then true
  else
    match findSize url.data with
    | some (w, h) =>
      if w < 120 || h < 120 then false
      else if hqNearSquare w h then false
      else if 300 ≤ w || 300 ≤ h then true
      else size_patterns.any (fun p => pyIn p url)
    | none => size_patterns.any (fun p => pyIn p url)

/-- Pattern table of _is_content_image: exclude_patterns. -/
def exclude_patterns : List String :=
  ["icon", "logo", "avatar", "face", "user", "btn", "banner",
   "share", "footer", "header", "nav", "qrcode", "qrimg",
   "adload", "sprite", "recommend", "mypp-fd", "_50.jpg",
   "default_", "app/qrimg", "zol-img.com.cn/group", "lazy-icon",
   "ico-", "ico_", "ico.", "head.", "head-"]

/-- Pattern table of _is_content_image: square_patterns. -/
def square_patterns : List String :=
  ["50x50", "60x60", "80x80", "100x100", "120x120", "x150c", "x180c"]

/-- Pattern table of _is_content_image: small_size_patterns. -/
def ci_small_size_patterns : List String := ["_50x", "_80x", "_50.", "_60.", "_80.", "micro"]

/-- Pattern table of _is_content_image: high_quality_patterns. -/
def ci_high_quality_patterns : List String :=
  ["/t_s2000x", "/t_s1000x", "/g7/M00", "ChMk",
   "doc-fd.zol-img.com.cn/t_s", "product/gallery",
   "content-top-img", "origin-img", "big-img", "pic-large",
   "mobile", "cell_phone", "smartphone"]

/-- Pattern table of _is_content_image: general_patterns. -/
def ci_general_patterns : List String :=
  ["/t_s", "/g7/", "/g5/", "/M00/", "zol-img", "article",
   "content", "news", "pic", "photo", "image"]

/-- Pattern table of _is_content_image: image_extensions. -/
def image_extensions : List String := [".jpg", ".jpeg", ".png", ".gif", ".webp"]

/-- ZolFetcher._is_content_image. -/
def _is_content_image (url : String) : Bool :=
  if exclude_patterns.any (fun p => pyIn p (pyLower url)) then false
  else if square_patterns.any (fun p => pyIn p url) then false
  else if ci_small_size_patterns.any (fun p => pyIn p (pyLower url)) then false
  else if ci_high_quality_patterns.any (fun p => pyIn p url) then true
  else if ci_general_patterns.any (fun p => pyIn p url) then true
  else image_extensions.any (fun e => pyEndsWith (pyLower url) e)

/-- ZolFetcher._is_invalid_url. -/
def _is_invalid_url (url : String) : Bool :=
  if url = "" then true
  else if pyStartsWith url "data:" then true
  else if pyIn "\x7b\x7b" url || pyIn "\x7d\x7d" url then true
  else if url = "none" || url = "undefined" || url = "null" then true
  else false

/-- The resolution-upgrade loop inside _get_valid_image_src: tries the larger
size tokens largest first and keeps the first substitution that differs. -/
def tryUpgrades : List String → String → String
  | [], src => src
  | sz :: rest, src =>
    let pot := subTs sz src
    if pot ≠ src then pot else tryUpgrades rest src

/-- The size-token rewrite of _get_valid_image_src (the upgradeResolution
operation of the spec): a URL with a t_s token and no already-large token has
its t_s\d+x\d+ tokens substituted, trying t_s1000x, then t_s800x, then
t_s600x. -/
def upgradeResolutionTs (src : String) : String :=
  if pyIn "t_s" src && !(pyIn "t_s800" src || pyIn "t_s1000" src || pyIn "t_s2000" src) then
    tryUpgrades ["t_s1000x", "t_s800x", "t_s600x"] src
  else src

/-! ### HTML document tree (the BeautifulSoup parse tree) -/

/-- A parsed HTML node: a text node or an element with a tag name, an
attribute list and children. -/
inductive Node where
  | text : String → Node
  | elem : String → List (String × String) → List Node → Node

/-- Attribute list of a node. -/
def Node.attrL : Node → List (String × String)
  | .text _ => []
  | .elem _ a _ => a

/-- Children of a node. -/
def Node.childL : Node → List Node
  | .text _ => []
  | .elem _ _ c => c

/-- Tag.get(key): the attribute value, none when absent. -/
def getAttr (n : Node) (k : String) : Option String :=
  (n.attrL.find? (fun p => p.1 == k)).map (fun p => p.2)

/-- Tag.get(key, default). -/
def getAttrD (n : Node) (k d : String) : String := (getAttr n k).getD d

/-- Splits an attribute value on whitespace; BeautifulSoup presents the class
attribute as this word list. -/
def splitWsGo (cur : List Char) : List Char → List (List Char)
  | [] => if cur.isEmpty then [] else [cur.reverse]
  | c :: rest =>
    if pySpace c then
      if cur.isEmpty then splitWsGo [] rest else cur.reverse :: splitWsGo [] rest
    else splitWsGo (c :: cur) rest

/-- Tag.get(class): the list of class words of the node. -/
def classList (n : Node) : List String :=
  match getAttr n "class" with
  | some v => (splitWsGo [] v.data).map (fun w => String.mk w)
  | none => []

/-- Whether a node is an element with the given tag name. -/
def tagIs (t : String) (n : Node) : Bool :=
  match n with
  | .elem nm _ _ => nm == t
  | .text _ => false

/-! ### CSS selector engine (the soupsieve subset the source uses) -/

/-- A compound simple selector: optional tag name, required classes, optional
id, attribute equality tests and attribute substring tests. -/
structure SSel where
  tagN : Option String
  classes : List String
  idSel : Option String
  attrEq : List (String × String)
  attrSub : List (String × String)

/-- Selector of a bare tag name. -/
def selTag (t : String) : SSel := ⟨some t, [], none, [], []⟩

/-- Selector of a bare class. -/
def selClass (c : String) : SSel := ⟨none, [c], none, [], []⟩

/-- Selector tag.class. -/
def selTagClass (t c : String) : SSel := ⟨some t, [c], none, [], []⟩

/-- Selector tag.class1.class2. -/
def selTagClasses (t : String) (cs : List String) : SSel := ⟨some t, cs, none, [], []⟩

/-- Selector of a bare id. -/
def selId (i : String) : SSel := ⟨none, [], some i, [], []⟩

/-- Selector tag[attr="value"]. -/
def selTagAttrEq (t k v : String) : SSel := ⟨some t, [], none, [(k, v)], []⟩

/-- Selector tag[attr*="value"]. -/
def selTagAttrSub (t k v : String) : SSel := ⟨some t, [], none, [], [(k, v)]⟩

/-- Whether a node matches a compound simple selector. -/
def simpleMatches (n : Node) (s : SSel) : Bool :=
  match n with
  | .text _ => false
  | .elem nm _ _ =>
    (match s.tagN with | some t => nm == t | none => true) &&
    s.classes.all (fun c => (classList n).contains c) &&
    (match s.idSel with | some i => getAttr n "id" == some i | none => true) &&
    s.attrEq.all (fun p => getAttr n p.1 == some p.2) &&
    s.attrSub.all (fun p => match getAttr n p.1 with | some x => pyIn p.2 x | none => false)

/-- A selector: a compound selector, possibly reached through descendant or
child combinators. -/
inductive Sel where
  | simple : SSel → Sel
  | desc : Sel → SSel → Sel
  | child : Sel → SSel → Sel

/-- Iterates a matcher over the proper ancestors of a node (nearest first,
each paired with its own remaining ancestors). -/
def anyAnc (f : List Node → Node → Bool) : List Node → Bool
  | [] => false
  | p :: rest => f rest p || anyAnc f rest

/-- Whether a node with the given ancestor chain (nearest first) matches a
selector. -/
def selMatch : Sel → List Node → Node → Bool
  | .simple s, _, n => simpleMatches n s
  | .desc a s, anc, n => simpleMatches n s && anyAnc (selMatch a) anc
  | .child a s, anc, n =>
    simpleMatches n s &&
    (match anc with
     | p :: rest => selMatch a rest p
     | [] => false)

mutual

/-- All element nodes of a subtree in document order, each with its ancestor
chain (nearest first); text nodes carry no descendants and are skipped, as
soup.select only returns tags. -/
def withAnc (anc : List Node) : Node → List (List Node × Node)
  | .text _ => []
  | .elem t a cs => (anc, .elem t a cs) :: withAncL (.elem t a cs :: anc) cs

/-- withAnc over a list of siblings. -/
def withAncL (anc : List Node) : List Node → List (List Node × Node)
  | [] => []
  | n :: ns => withAnc anc n ++ withAncL anc ns

end

/-- soup.select: all elements of the document matching the selector, in
document order. -/
def select (doc : List Node) (s : Sel) : List Node :=
  (withAncL [] doc).filterMap (fun p => if selMatch s p.1 p.2 then some p.2 else none)

/-- soup.select_one. -/
def selectOne (doc : List Node) (s : Sel) : Option Node := (select doc s).head?

mutual

/-- All element nodes of a subtree in document order, including the root when
it is an element. -/
def elemsOf : Node → List Node
  | .text _ => []
  | .elem t a cs => Node.elem t a cs :: elemsOfL cs

/-- elemsOf over a list of siblings. -/
def elemsOfL : List Node → List Node
  | [] => []
  | n :: ns => elemsOf n ++ elemsOfL ns

end

/-- element.select with a compound simple selector: matching proper
descendants in document order (the source only ever uses combinator-free
selectors below an element). -/
def subSelect (n : Node) (s : SSel) : List Node :=
  (elemsOfL n.childL).filter (fun d => simpleMatches d s)

/-- element.select_one with a compound simple selector. -/
def subSelectOne (n : Node) (s : SSel) : Option Node := (subSelect n s).head?

/-- element.find_all(tag): matching proper descendants in document order. -/
def findAllTag (t : String) (n : Node) : List Node := (elemsOfL n.childL).filter (tagIs t)

/-- soup.find_all(tag) at document level. -/
def docFindAllTag (t : String) (doc : List Node) : List Node := (elemsOfL doc).filter (tagIs t)

/-- element.find(tag) is not none: whether a matching descendant exists. -/
def hasDescTag (t : String) (n : Node) : Bool := (elemsOfL n.childL).any (tagIs t)

mutual

/-- The text-node strings of a subtree in document order. -/
def textOf : Node → List String
  | .text s => [s]
  | .elem _ _ cs => textOfL cs

/-- textOf over a list of siblings. -/
def textOfL : List Node → List String
  | [] => []
  | n :: ns => textOf n ++ textOfL ns

end

/-- Tag.get_text(strip=True): every text node stripped, all joined. -/
def getTextStrip (n : Node) : String := ((textOf n).map pyStrip).foldl (fun a b => a ++ b) ""

/-- Tag.get_text() without stripping. -/
def getTextRaw (n : Node) : String := (textOf n).foldl (fun a b => a ++ b) ""

/-- Void HTML tags serialized without a closing tag. -/
def voidTags : List String := ["img", "br", "meta", "hr", "input", "link", "source"]

/-- Serializes an attribute list the way str(tag) renders it. -/
def serializeAttrs (a : List (String × String)) : String :=
  a.foldl (fun acc p => acc ++ " " ++ p.1 ++ "=\"" ++ p.2 ++ "\"") ""

mutual

/-- str(tag): the HTML serialization of a subtree (entity escaping of text is
not modelled; no claim inspects serialized text content). -/
def serializeNode : Node → String
  | .text s => s
  | .elem t a cs =>
    if voidTags.contains t then "<" ++ t ++ serializeAttrs a ++ "/>"
    else "<" ++ t ++ serializeAttrs a ++ ">" ++ serializeNodeL cs ++ "</" ++ t ++ ">"

/-- serializeNode over a list of siblings. -/
def serializeNodeL : List Node → String
  | [] => ""
  | n :: ns => serializeNode n ++ serializeNodeL ns

end

/-! ### Image-source extraction and URL normalization -/

/-- The attribute priority list of _get_valid_image_src. -/
def srcAttrNames : List String :=
  ["src", "data-src", "data-original", "data-lazy-src", "data-lazysrc", "data-original-src"]

/-- The attribute scan of _get_valid_image_src: the first attribute whose
value is truthy and not invalid.  A present-but-empty value is falsy in
Python and is skipped. -/
def firstAttrCandidate (img : Node) : Option String :=
  srcAttrNames.findSome? (fun a =>
    match getAttr img a with
    | some v => if v ≠ "" && !(_is_invalid_url v) then some v else none
    | none => none)

/-- The background-image fallback of _get_valid_image_src. -/
def bgCandidate (img : Node) : Option String :=
  match getAttr img "style" with
  | some style =>
    if style ≠ "" && pyIn "background-image:" style then
      match bgSearch style.data with
      | some u =>
        let bg : String := ⟨u⟩
        if bg ≠ "" && bg ≠ "none" && !(_is_invalid_url bg) then some bg else none
      | none => none
    else none
  | none => none

/-- The candidate _get_valid_image_src selects before the resolution
upgrade: the first passing attribute, else the background-image URL. -/
def selectedCandidate (img : Node) : Option String :=
  match firstAttrCandidate img with
  | some s => some s
  | none => bgCandidate img

/-- ZolFetcher._get_valid_image_src. -/
def _get_valid_image_src (img : Node) : Option String :=
  match selectedCandidate img with
  | none => none
  | some s => some (upgradeResolutionTs s)

/-- The listing URL the fetcher is constructed with. -/
def site_url : String := "https://m.zol.com.cn/mobile/"

/-- The scheme part of a URL including the colon (helper for the urljoin
model). -/
def schemePart (s : String) : String :=
  if hasScheme s then ⟨s.data.takeWhile (fun c => c ≠ ':') ++ [':']⟩ else ""

/-- Scheme and authority of a URL (helper for the urljoin model): everything
up to the first slash after the double slash. -/
def schemeHostPart (s : String) : String :=
  match afterFirst "://".data s.data with
  | some rest => ⟨beforeFirst "://".data s.data ++ "://".data ++ beforeFirst "/".data rest⟩
  | none => s

/-- Base directory of a URL (helper for the urljoin model): everything up to
and including the last slash; a slashless base gains one. -/
def baseDirPart (s : String) : String :=
  let rev := s.data.reverse
  let cut := rev.dropWhile (fun c => c ≠ '/')
  if cut.isEmpty then s ++ "/" else ⟨cut.reverse⟩

/-- Model of urllib.parse.urljoin for the shapes the fetcher produces: a
relative reference with its own scheme is returned unchanged,
protocol-relative references take the base scheme, rooted paths take the base
authority, and other paths are appended to the base directory (dot-segment
normalization is not modelled; no claim depends on path shape). -/
def pyUrljoin (base rel : String) : String :=
  if rel = "" then base
  else if hasScheme rel then rel
  else if pyStartsWith rel "//" then schemePart base ++ rel
  else if pyStartsWith rel "/" then schemeHostPart base ++ rel
  else baseDirPart base ++ rel

/-- ZolFetcher._normalize_url. -/
def _normalize_url (url base : String) : String :=
  if pyStartsWith url "//" then "https:" ++ url
  else if !(pyStartsWith url "http://" || pyStartsWith url "https://") then pyUrljoin base url
  else url

/-! ### Link discovery (fetch_article_links, parse phase) -/

/-- The listing selectors tried in order (lines 85 to 93 of the source):
.news-list a, .list-item a, .item-news a, ul li a, a[href*="/article/"],
a[href*="/index"], div > a. -/
def link_selectors : List Sel :=
  [.desc (.simple (selClass "news-list")) (selTag "a"),
   .desc (.simple (selClass "list-item")) (selTag "a"),
   .desc (.simple (selClass "item-news")) (selTag "a"),
   .desc (.desc (.simple (selTag "ul")) (selTag "li")) (selTag "a"),
   .simple (selTagAttrSub "a" "href" "/article/"),
   .simple (selTagAttrSub "a" "href" "/index"),
   .child (.simple (selTag "div")) (selTag "a")]

/-- Union of the matches of every listing selector, in selector order (the
source extends one list per selector). -/
def collectItems (doc : List Node) : List Node :=
  link_selectors.foldl (fun acc s => acc ++ select doc s) []

/-- The href attribute of an item. -/
def itemHref (n : Node) : Option String := getAttr n "href"

/-- The deduplication dictionary loop: keeps the first item per truthy href,
in insertion order. -/
def dedupGo : List Node → List String → List Node
  | [], _ => []
  | i :: rest, seen =>
    match itemHref i with
    | some h =>
      if h ≠ "" && !(seen.contains h) then i :: dedupGo rest (h :: seen)
      else dedupGo rest seen
    | none => dedupGo rest seen

/-- Deduplication by raw href, first occurrence wins. -/
def dedupByHref (items : List Node) : List Node := dedupGo items []

/-- The per-item title selectors: h3, .title, h4, .item-title, p, div.text. -/
def item_title_selectors : List SSel :=
  [selTag "h3", selClass "title", selTag "h4", selClass "item-title",
   selTag "p", selTagClass "div" "text"]

/-- Title resolution for one listing item: the first matching child selector,
else the text of the item itself, else absent. -/
def itemTitle (item : Node) : Option String :=
  let t0 : Option String :=
    (item_title_selectors.findSome? (fun s => subSelectOne item s)).map getTextStrip
  match t0 with
  | some t => if t = "" && getTextStrip item ≠ "" then some (getTextStrip item) else some t
  | none => if getTextStrip item ≠ "" then some (getTextStrip item) else none

/-- URL resolution of one href (lines 137 to 142 of the source). -/
def resolveHref (href : String) : String :=
  if pyStartsWith href "//" then "https:" ++ href
  else if !(pyStartsWith href "http://" || pyStartsWith href "https://") then pyUrljoin site_url href
  else href

/-- The content-path patterns a kept URL must contain one of. -/
def mobile_patterns : List String := ["/mobile/", "/article/", "/news/", "/index", "/cell_phone/"]

/-- Processing of one deduplicated item: href check, title resolution, URL
resolution, site and path filtering, desktop-to-mobile rewrite. -/
def processItem (item : Node) : Option (String × Option String) :=
  let href := (itemHref item).getD ""
  let title := itemTitle item
  if href ≠ "" then
    let full := resolveHref href
    if pyIn "zol.com.cn" full && mobile_patterns.any (fun p => pyIn p full) then
      let full2 :=
        if pyIn "news.zol.com.cn" full then pyReplace full "news.zol.com.cn" "m.zol.com.cn"
        else full
      some (full2, title)
    else none
  else none

/-- The accumulation loop over deduplicated items: stops as soon as the limit
is reached (checked before each item, as in the source). -/
def linkLoop (limit : Nat) : List Node → List (String × Option String) → List (String × Option String)
  | [], acc => acc
  | item :: rest, acc =>
    if limit ≤ acc.length then acc
    else
      match processItem item with
      | some l => linkLoop limit rest (acc ++ [l])
      | none => linkLoop limit rest acc

/-- fetch_article_links, parse phase: the article links extracted from a
successfully fetched listing document. -/
def fetch_article_links_doc (doc : List Node) (limit : Nat) : List (String × Option String) :=
  linkLoop limit (dedupByHref (collectItems doc)) []

/-- fetch_article_links with a parse-level exception injected while the j-th
deduplicated item is being processed: the outer except clause catches it and
the accumulated list is returned as is. -/
def linkLoopExn (limit : Nat) : Nat → List Node → List (String × Option String) → List (String × Option String)
  | _, [], acc => acc
  | j, item :: rest, acc =>
    if limit ≤ acc.length then acc
    else if j = 0 then acc
    else
      match processItem item with
      | some l => linkLoopExn limit (j - 1) rest (acc ++ [l])
      | none => linkLoopExn limit (j - 1) rest acc

/-- fetch_article_links, parse phase, with an exception raised at the j-th
item. -/
def fetch_article_links_exn (doc : List Node) (limit j : Nat) : List (String × Option String) :=
  linkLoopExn limit j (dedupByHref (collectItems doc)) []

/-! ### Article extraction (fetch_article_data, parse phase) -/

/-- Selector of a compound class list. -/
def selClasses (cs : List String) : SSel := ⟨none, cs, none, [], []⟩

/-- The article title selectors, in source order (lines 214 to 219). -/
def article_title_selectors : List Sel :=
  [.simple (selTagClass "h1" "title"),
   .simple (selTagClass "h3" "title"),
   .simple (selTagClass "h1" "article-title"),
   .simple (selTagClass "h1" "article-header"),
   .desc (.simple (selClass "article-header")) (selTag "h1"),
   .simple (selClass "article-title"),
   .simple (selClass "news-title"),
   .desc (.simple (selTag "header")) (selTag "h1"),
   .desc (.simple (selClass "news-header")) (selTag "h1"),
   .desc (.simple (selTag "article")) (selTag "h1"),
   .desc (.simple (selTagClass "div" "detail-text")) (selTagClass "h3" "title"),
   .desc (.simple (selClass "article-info")) (selTag "h1"),
   .simple (selClass "title")]

/-- The meta[property="og:title"] selector. -/
def ogTitleSel : Sel := .simple (selTagAttrEq "meta" "property" "og:title")

/-- The meta[property="og:image"] selector. -/
def ogImageSel : Sel := .simple (selTagAttrEq "meta" "property" "og:image")

/-- The page title element selector. -/
def titleTagSel : Sel := .simple (selTag "title")

/-- The sentinel title when nothing at all can be resolved. -/
def article_title_sentinel : String := "取得できませんでした"

/-- The title-resolution chain of fetch_article_data (lines 212 to 236):
first structural selector that matches, else the og:title meta content, else
the page title text before the first hyphen, else the sentinel. -/
def resolveTitle (doc : List Node) : String :=
  match article_title_selectors.findSome? (fun s => selectOne doc s) with
  | some tag => getTextStrip tag
  | none =>
    match selectOne doc ogTitleSel with
    | some m => pyStrip (getAttrD m "content" "")
    | none =>
      match selectOne doc titleTagSel with
      | some t => pyStrip (pySplitHead '-' (getTextRaw t))
      | none => article_title_sentinel

/-- The body container selectors, in source order (lines 243 to 256). -/
def article_content_selectors : List Sel :=
  [.simple (selTagClass "div" "article-cont"),
   .simple (selTagClass "div" "detail-text"),
   .simple (selTagClass "div" "article-content"),
   .simple (selTagClass "div" "article__content"),
   .simple (selClasses ["article-cont", "clearfix"]),
   .simple (selId "article-content"),
   .simple (selClass "news-content"),
   .desc (.simple (selTag "article")) (selClass "content"),
   .desc (.simple (selClass "article")) (selClass "content"),
   .simple (selClass "content-detail"),
   .simple (selTagClass "div" "article"),
   .simple (selTagClass "div" "content")]

/-- The heuristic body candidates (lines 268 to 279): divs whose class names
hint at article or content with more than 100 characters of text, or divs
with more than 300 characters of text and a paragraph descendant; each paired
with its text length. -/
def heuristicCandidates (doc : List Node) : List (Node × Nat) :=
  (docFindAllTag "div" doc).filterMap (fun d =>
    let hasCls := (classList d).any (fun c =>
      c ≠ "" && (pyIn "article" (pyLower c) || pyIn "content" (pyLower c)))
    let len := (getTextStrip d).length
    let hasP := hasDescTag "p" d
    if (hasCls && 100 < len) || (300 < len && hasP) then some (d, len) else none)

/-- The stable descending sort by text length followed by taking the head:
equivalently, the first candidate carrying the maximal text length. -/
def pickBest : List (Node × Nat) → Option Node := fun l =>
  (l.foldl (fun best p =>
    match best with
    | none => some p
    | some q => if q.2 < p.2 then some p else some q) none).map (fun p => p.1)

/-- The body-container resolution chain: structural selectors, then the
heuristic scan. -/
def resolveContentDiv (doc : List Node) : Option Node :=
  match article_content_selectors.findSome? (fun s => selectOne doc s) with
  | some d => some d
  | none => pickBest (heuristicCandidates doc)

/-- The non-content selectors decomposed out of the body container (line
293). -/
def ad_selectors : List SSel :=
  [selTagClass "div" "recommend-box",
   selTagClass "div" "ad-box",
   selTagClass "div" "article-topic",
   selTagClass "div" "article-footer",
   selClass "recommend",
   selClass "article-related",
   selClass "article-foot",
   selClass "article-footer",
   selClass "related-content"]

/-- Whether a node matches one of the ad selectors. -/
def isAdNode (n : Node) : Bool := ad_selectors.any (fun s => simpleMatches n s)

mutual

/-- Models Tag.decompose of every ad-selector match below a node: the matched
descendants are dropped with their subtrees.  (In the source the removal
mutates the shared soup; here only the container value is rebuilt, which is
equivalent for every field the claims inspect.) -/
def pruneAds : Node → Node
  | .text s => .text s
  | .elem t a cs => .elem t a (pruneAdsL cs)

/-- pruneAds over a list of siblings. -/
def pruneAdsL : List Node → List Node
  | [] => []
  | n :: ns => if isAdNode n then pruneAdsL ns else pruneAds n :: pruneAdsL ns

end

/-- The placeholder body when no container can be resolved (line 290). -/
def content_placeholder : String := "<div>本文を取得できませんでした</div>"

/-- One extracted image reference. -/
structure ImageRef where
  src : String
  order : Nat
  alt : String
deriving DecidableEq

/-- One guarded append of the image loops: every append site in the source
checks that the src is not already present and records order as the current
list length. -/
def addIfNew (imgs : List ImageRef) (cand : Option (String × String)) : List ImageRef :=
  match cand with
  | none => imgs
  | some (src, alt) =>
    if imgs.any (fun i => i.src == src) then imgs
    else imgs ++ [⟨src, imgs.length, alt⟩]

/-- The alt fallback used at the append sites: the alt attribute when truthy,
else the article title. -/
def altOf (img : Node) (title : String) : String :=
  let a := getAttrD img "alt" ""
  if a ≠ "" then a else title

/-- The size-attribute skip tests shared by the image loops (small or
near-square images are skipped; unparsable attributes are ignored).  The
near-square test is ratio in [0.9, 1.1] with max below 200, written as the
exact rational comparison; the lower bound is automatic since ratio >= 1. -/
def sizeAttrSkip (img : Node) : Bool :=
  match getAttr img "width", getAttr img "height" with
  | some w, some h =>
    if w ≠ "" && h ≠ "" then
      match pyInt w, pyInt h with
      | some wi, some hi =>
        wi < 100 || hi < 100 || (10 * max wi hi ≤ 11 * min wi hi && max wi hi < 200)
      | _, _ => false
    else false
  | _, _ => false

/-- Image stage 1: the og:image meta candidate (alt is the title, content
filter only). -/
def ogImageStage (doc : List Node) (title finalUrl : String) (imgs : List ImageRef) : List ImageRef :=
  match selectOne doc ogImageSel with
  | some m =>
    let c := getAttrD m "content" ""
    if c ≠ "" then
      let src := _normalize_url c finalUrl
      addIfNew imgs (if _is_content_image src then some (src, title) else none)
    else imgs
  | none => imgs

/-- The primary-image class selectors of stage 2 (lines 319 to 322). -/
def main_img_selectors : List SSel :=
  [selTagClass "img" "content-top-img-yh",
   selTagClass "img" "content-top-img",
   selTagClass "img" "origin-img",
   selTagClass "img" "article-top-img",
   selTagClass "img" "big-img",
   selTagClass "img" "big-pic",
   selTagClass "img" "pic-large"]

/-- Candidate of one primary image: size skip, source extraction,
normalization, content and quality filters. -/
def mainCand (img : Node) (title finalUrl : String) : Option (String × String) :=
  if sizeAttrSkip img then none
  else
    match _get_valid_image_src img with
    | some s0 =>
      let src := _normalize_url s0 finalUrl
      if _is_content_image src && _is_high_quality_image src then some (src, altOf img title)
      else none
    | none => none

/-- Image stage 2a: primary images of the body container. -/
def mainImgsStage (cd : Node) (title finalUrl : String) (imgs : List ImageRef) : List ImageRef :=
  (main_img_selectors.foldl (fun acc s => acc ++ subSelect cd s) []).foldl
    (fun acc img => addIfNew acc (mainCand img title finalUrl)) imgs

/-- The class names already handled by stage 2a and skipped by stage 2b. -/
def processed_classes : List String :=
  ["content-top-img-yh", "content-top-img", "origin-img", "article-top-img"]

/-- The serialized-tag skip patterns of stage 2b (line 363). -/
def skip_patterns : List String :=
  ["icon", "logo", "avatar", "face", "user", "btn", "banner", "ad-", "recommend"]

/-- Candidate of one remaining body image: processed-class skip, serialized
pattern skip, size skip, then the same extraction and filters. -/
def otherCand (img : Node) (title finalUrl : String) : Option (String × String) :=
  if classList img ≠ [] && (classList img).any (fun c => processed_classes.contains c) then none
  else if skip_patterns.any (fun p => pyIn p (pyLower (serializeNode img))) then none
  else if sizeAttrSkip img then none
  else
    match _get_valid_image_src img with
    | some s0 =>
      let src := _normalize_url s0 finalUrl
      if _is_content_image src && _is_high_quality_image src then some (src, altOf img title)
      else none
    | none => none

/-- Image stage 2b: every img of the body container. -/
def otherImgsStage (cd : Node) (title finalUrl : String) (imgs : List ImageRef) : List ImageRef :=
  (findAllTag "img" cd).foldl (fun acc img => addIfNew acc (otherCand img title finalUrl)) imgs

/-- The anchors of the body container carrying an href attribute
(find_all with href=True). -/
def anchorsWithHref (cd : Node) : List Node :=
  (elemsOfL cd.childL).filter (fun n => tagIs "a" n && (getAttr n "href").isSome)

/-- Candidate of one #src= anchor of stage 3: the segment after #src= is
URL-decoded; a leading slash gains the https scheme prefix; content and
quality filters apply.  Note that no base-URL join is performed here. -/
def anchorCand (a : Node) (title : String) : Option (String × String) :=
  let href := getAttrD a "href" ""
  if pyIn "#src=" href then
    let sp := pySplitSecond "#src=" href
    if sp ≠ "" then
      let src0 := pyUnquote sp
      let src := if pyStartsWith src0 "/" then "https:" ++ src0 else src0
      if _is_content_image src && _is_high_quality_image src then
        some (src, if getTextStrip a ≠ "" then getTextStrip a else title)
      else none
    else none
  else none

/-- Image stage 3: the #src= anchors of the body container. -/
def srcAnchorStage (cd : Node) (title : String) (imgs : List ImageRef) : List ImageRef :=
  (anchorsWithHref cd).foldl (fun acc a => addIfNew acc (anchorCand a title)) imgs

/-- Tag.string of a script node: its single text child. -/
def scriptString (n : Node) : Option String :=
  match n.childL with
  | [Node.text s] => some s
  | _ => none

/-- Candidate built from one group tuple of the script regex.  The findall
groups are the scheme and the extension, so the reconstructed value is
scheme-plus-extension, never the matched URL. -/
def scriptCand (g : String × String) (title : String) : Option (String × String) :=
  let u0 := if g.1 ≠ "" then g.1 ++ g.2 else "https:" ++ g.2
  let u := pyReplace u0 "\\" ""
  if _is_content_image u && _is_high_quality_image u then some (u, title) else none

/-- Image stage 4: scripts containing the page-data marker. -/
def scriptStage (doc : List Node) (title : String) (imgs : List ImageRef) : List ImageRef :=
  (docFindAllTag "script" doc).foldl (fun acc sc =>
    match scriptString sc with
    | some txt =>
      if pyIn "var page = " txt then
        (scriptFindAll txt).foldl (fun acc2 g => addIfNew acc2 (scriptCand g title)) acc
      else acc
    | none => acc) imgs

/-- The site-specific path fragments of stage 5a (lines 443 to 450). -/
def zol_img_patterns : List String :=
  ["zol-img.com.cn/t_s", "zol-img.com.cn/product", "zol-img.com.cn/g",
   "/ChMk", "origin-img", "big-img"]

/-- Candidate of one page-wide image of stage 5a. -/
def zolCand (img : Node) (title finalUrl : String) : Option (String × String) :=
  if sizeAttrSkip img then none
  else
    match _get_valid_image_src img with
    | some s0 =>
      let src := _normalize_url s0 finalUrl
      if zol_img_patterns.any (fun p => pyIn p src) && _is_high_quality_image src then
        some (src, altOf img title)
      else none
    | none => none

/-- Image stage 5a: runs on an empty image list and breaks after the first
accepted image, so the result is the first passing candidate alone. -/
def zolScan (title finalUrl : String) : List Node → List ImageRef
  | [] => []
  | img :: rest =>
    match zolCand img title finalUrl with
    | some c => [⟨c.1, 0, c.2⟩]
    | none => zolScan title finalUrl rest

/-- Candidate of one last-resort image of stage 5b: any valid source whose
lowercase form avoids icon, logo and avatar (checked before normalization). -/
def lastResortCand (img : Node) (title finalUrl : String) : Option (String × String) :=
  match _get_valid_image_src img with
  | some s0 =>
    if !(["icon", "logo", "avatar"].any (fun p => pyIn p (pyLower s0))) then
      some (_normalize_url s0 finalUrl, altOf img title)
    else none
  | none => none

/-- Image stage 5b: also breaks after the first accepted image. -/
def lastResortScan (title finalUrl : String) : List Node → List ImageRef
  | [] => []
  | img :: rest =>
    match lastResortCand img title finalUrl with
    | some c => [⟨c.1, 0, c.2⟩]
    | none => lastResortScan title finalUrl rest

/-- Image stage 5: the page-wide fallbacks, each gated on emptiness. -/
def pageWideStage (doc : List Node) (title finalUrl : String) : List ImageRef :=
  let a := zolScan title finalUrl (docFindAllTag "img" doc)
  if a.isEmpty then lastResortScan title finalUrl (docFindAllTag "img" doc) else a

/-- Renumbering loop of the truncation step. -/
def renumberFrom : Nat → List ImageRef → List ImageRef
  | _, [] => []
  | i, r :: rest => ⟨r.src, i, r.alt⟩ :: renumberFrom (i + 1) rest

/-- The truncation step (lines 500 to 507): keep the first five and renumber
when more were collected. -/
def capFive (imgs : List ImageRef) : List ImageRef :=
  if 5 < imgs.length then renumberFrom 0 (imgs.take 5) else imgs

/-- The invariant every image-accumulation step maintains: pairwise distinct
sources and dense orders counting from zero. -/
def ImgsInv (l : List ImageRef) : Prop :=
  (l.map ImageRef.src).Nodup ∧ l.map ImageRef.order = List.range l.length

/-- The full image-collection pipeline of fetch_article_data, stages 1 to 5
followed by the truncation.  The container passed in is the pruned one, as
the decompose step precedes image collection in the source. -/
def collectImages (doc : List Node) (contentDiv : Option Node) (title finalUrl : String) :
    List ImageRef :=
  let i1 := ogImageStage doc title finalUrl []
  let i23 :=
    match contentDiv with
    | some cd => srcAnchorStage cd title (otherImgsStage cd title finalUrl (mainImgsStage cd title finalUrl i1))
    | none => i1
  let i4 := scriptStage doc title i23
  let i5 := if i4.isEmpty then pageWideStage doc title finalUrl else i4
  capFive i5

/-- The record fetch_article_data assembles (lines 509 to 515). -/
structure ArticleRecord where
  title : String
  content_html : String
  original_url : String
  final_url : String
  images : List ImageRef
deriving DecidableEq

/-- The parse phase of fetch_article_data on a fetched document: title
resolution, body resolution with ad removal or the placeholder, image
collection, record assembly. -/
def parse_article (doc : List Node) (url finalUrl : String) : ArticleRecord :=
  let title := resolveTitle doc
  let cd := (resolveContentDiv doc).map pruneAds
  let contentHtml :=
    match cd with
    | none => content_placeholder
    | some d => serializeNode d
  ⟨title, contentHtml, url, finalUrl, collectImages doc cd title finalUrl⟩

/-! ### Transport model (requests layer of fetch_article_data) -/

/-- A successful HTTP response: the parsed document and the post-redirect
URL. -/
structure Resp where
  doc : List Node
  url : String

/-- The corrective re-fetch outcome when it does not raise: a status code and
the parsed body. -/
structure CResp where
  status : Nat
  doc : List Node

/-- The environment of one fetch_article_data call: the outcome of the k-th
initial attempt (none is a raised RequestException), the outcome of the
corrective mobile re-fetch (none is a raised exception), and whether the
parse phase raises an unexpected exception. -/
structure NetEnv where
  attempt : Nat → Option Resp
  corrective : Option CResp
  parseRaises : Bool

/-- max_retries of the fetcher. -/
def max_retries : Nat := 3

/-- The retry loop: up to the given number of attempts, first success wins;
exhaustion returns none, as the source returns None. -/
def tryFetchLoop (attempt : Nat → Option Resp) : Nat → Nat → Option Resp
  | 0, _ => none
  | n + 1, k =>
    match attempt k with
    | some r => some r
    | none => tryFetchLoop attempt n (k + 1)

/-- The network phase of fetch_article_data (lines 172 to 207): retry loop,
then the desktop-redirect detection and the corrective re-fetch.  Returns the
document that will be parsed, the final URL recorded, and whether a
corrective request was issued.  Mirrors the source exactly: the response
variable is reassigned by a completed corrective request before its status is
tested, so a non-200 corrective body is what gets parsed while the final URL
stays the desktop one; only a raised corrective exception keeps the original
response. -/
def netPhase (env : NetEnv) : Option (List Node × String × Bool) :=
  match tryFetchLoop env.attempt max_retries 0 with
  | none => none
  | some resp =>
    let finalUrl := resp.url
    if pyIn "news.zol.com.cn" finalUrl then
      let mobileUrl := pyReplace finalUrl "news.zol.com.cn" "m.zol.com.cn"
      match env.corrective with
      | some c =>
        if c.status == 200 then some (c.doc, mobileUrl, true)
        else some (c.doc, finalUrl, true)
      | none => some (resp.doc, finalUrl, true)
    else some (resp.doc, finalUrl, false)

/-- fetch_article_data: desktop-to-mobile URL rewrite, network phase, then
the parse phase guarded by the catch-all except clauses (a parse exception
returns None). -/
def fetch_article_data (env : NetEnv) (url0 : String) : Option ArticleRecord :=
  let url :=
    if pyIn "news.zol.com.cn" url0 then pyReplace url0 "news.zol.com.cn" "m.zol.com.cn"
    else url0
  match netPhase env with
  | none => none
  | some r =>
    if env.parseRaises then none
    else some (parse_article r.1 url r.2.1)

/-! ### Concrete documents and environments used by witnesses and
counterexamples -/

/-- A page whose only relevant element is an empty title element. -/
def docEmptyTitle : List Node := [.elem "html" [] [.elem "head" [] [.elem "title" [] []]]]

/-- A page with no title source at all. -/
def docBare : List Node := [.elem "html" [] [.elem "body" [] []]]

/-- A listing page with two article anchors inside a div. -/
def docListing : List Node :=
  [.elem "div" [] [
    .elem "a" [("href", "https://m.zol.com.cn/article/1.html")] [.text "t1"],
    .elem "a" [("href", "https://m.zol.com.cn/article/2.html")] [.text "t2"]]]

/-- An article page whose body container holds one anchor with a relative
path inside a src fragment. -/
def docRelImg : List Node :=
  [.elem "html" [] [.elem "body" [] [
    .elem "div" [("class", "article-cont")] [
      .elem "a" [("href", "x#src=pic/ChMk1.jpg")] [.text "p1"]]]]]

/-- Environment: the first attempt succeeds on docRelImg, nothing else
happens. -/
def envRelImg : NetEnv :=
  ⟨fun _ => some ⟨docRelImg, "https://m.zol.com.cn/a/1.html"⟩, none, false⟩

/-- A page carrying only an original title heading. -/
def docOrig : List Node := [.elem "h1" [("class", "title")] [.text "orig"]]

/-- A page carrying only a corrective title heading. -/
def docCorr : List Node := [.elem "h1" [("class", "title")] [.text "corr"]]

/-- Environment of the corrective-re-fetch scenario: the initial fetch
redirects onto the desktop host, and the corrective fetch completes with
status 404 and the body docCorr. -/
def envCorr404 : NetEnv :=
  ⟨fun _ => some ⟨docOrig, "https://news.zol.com.cn/a/1.html"⟩, some ⟨404, docCorr⟩, false⟩

/-- Environment where every attempt raises. -/
def envAllFail : NetEnv := ⟨fun _ => none, none, false⟩

/-- An img tag whose src attribute carries a small t_s size token. -/
def imgSmallTok : Node := .elem "img" [("src", "https://x/t_s400x300.jpg")] []

/-! ### Shared helper lemmas on the string primitives -/

/-- Rebuilding a string from its character data is the identity. -/
theorem strMk_data (s : String) : (⟨s.data⟩ : String) = s := by
  cases s
  rfl

/-- A successful Boolean prefix test exposes the suffix. -/
theorem isPrefixOf_ex {p s : List Char} (h : p.isPrefixOf s = true) : ∃ t, s = p ++ t := by
  induction p generalizing s with
  | nil => exact ⟨s, rfl⟩
  | cons a as ih =>
    cases s with
    | nil => simp [List.isPrefixOf] at h
    | cons b bs =>
      rw [List.isPrefixOf_cons₂] at h
      simp only [Bool.and_eq_true, beq_iff_eq] at h
      obtain ⟨t, ht⟩ := ih h.2
      exact ⟨t, by simp [h.1, ht]⟩

/-- The Boolean prefix test accepts the pattern followed by anything. -/
theorem isPrefixOf_self_append (p t : List Char) : p.isPrefixOf (p ++ t) = true := by
  induction p with
  | nil => simp
  | cons a as ih => simp [List.isPrefixOf_cons₂, ih]

/-- A prefix occurrence is a substring occurrence. -/
theorem issub_of_isPrefixOf {p s : List Char} (h : p.isPrefixOf s = true) : issub p s = true := by
  cases s with
  | nil =>
    cases p with
    | nil => rfl
    | cons a as => simp [List.isPrefixOf] at h
  | cons c rest => simp [issub, h]

/-- A substring occurrence exhibited explicitly is found. -/
theorem issub_of_parts (pre pat suf : List Char) : issub pat (pre ++ pat ++ suf) = true := by
  induction pre with
  | nil => exact issub_of_isPrefixOf (isPrefixOf_self_append pat suf)
  | cons c pre ih =>
    simp only [List.cons_append, issub, Bool.or_eq_true]
    exact Or.inr ih

/-- A found substring occurrence can be exhibited. -/
theorem issub_ex {pat s : List Char} (h : issub pat s = true) :
    ∃ pre suf, s = pre ++ pat ++ suf := by
  induction s with
  | nil =>
    simp [issub, List.isEmpty_iff] at h
    exact ⟨[], [], by simp [h]⟩
  | cons c rest ih =>
    simp only [issub, Bool.or_eq_true] at h
    rcases h with h | h
    · obtain ⟨t, ht⟩ := isPrefixOf_ex h
      exact ⟨[], t, by simp [ht]⟩
    · obtain ⟨pre, suf, hps⟩ := ih h
      exact ⟨c :: pre, suf, by simp [hps]⟩

/-- An occurrence of a longer pattern gives an occurrence of its prefix. -/
theorem issub_mono_pat {p q s : List Char} (h : issub (p ++ q) s = true) : issub p s = true := by
  obtain ⟨pre, suf, hs⟩ := issub_ex h
  have : s = pre ++ p ++ (q ++ suf) := by simp [hs]
  rw [this]
  exact issub_of_parts pre p (q ++ suf)

/-- Substring occurrences survive character maps. -/
theorem issub_map (f : Char → Char) {pat s : List Char} (h : issub pat s = true) :
    issub (pat.map f) (s.map f) = true := by
  obtain ⟨pre, suf, hs⟩ := issub_ex h
  rw [hs]
  simp only [List.map_append]
  exact issub_of_parts (pre.map f) (pat.map f) (suf.map f)

/-- A pattern fixed by lowercasing that occurs in a URL also occurs in the
lowercased URL. -/
theorem pyIn_lower_of_pyIn {pat u : String} (hfix : pat.data.map Char.toLower = pat.data)
    (h : pyIn pat u = true) : pyIn pat (pyLower u) = true := by
  have := issub_map Char.toLower h
  rwa [hfix] at this

/-! ### Helper lemmas on the size-token rewrite -/

/-- Without any t_s size token the substitution scanner is the identity. -/
theorem subTsGo_id (rep : List Char) :
    ∀ (fuel : Nat) (s : List Char), hasTsTok s = false → subTsGo rep fuel s = s := by
  intro fuel
  induction fuel with
  | zero => intro s _; rfl
  | succ f ih =>
    intro s hs
    cases s with
    | nil => rfl
    | cons c rest =>
      simp only [hasTsTok, Bool.or_eq_false_iff] at hs
      have hm : matchTsTok (c :: rest) = none := by
        cases hmm : matchTsTok (c :: rest) with
        | none => rfl
        | some n => rw [hmm] at hs; simp at hs
      simp [subTsGo, hm, ih rest hs.2]

/-- With a t_s size token present and enough fuel, the substitution scanner
emits the replacement somewhere. -/
theorem subTsGo_emits (rep : List Char) :
    ∀ (fuel : Nat) (s : List Char), s.length ≤ fuel → hasTsTok s = true →
      issub rep (subTsGo rep fuel s) = true := by
  intro fuel
  induction fuel with
  | zero =>
    intro s hlen hs
    have : s = [] := List.length_eq_zero.mp (Nat.le_zero.mp hlen)
    rw [this] at hs
    simp [hasTsTok] at hs
  | succ f ih =>
    intro s hlen hs
    cases s with
    | nil => simp [hasTsTok] at hs
    | cons c rest =>
      cases hm : matchTsTok (c :: rest) with
      | some n =>
        simp only [subTsGo, hm]
        exact issub_of_parts [] rep _
      | none =>
        have hrest : hasTsTok rest = true := by
          simp only [hasTsTok, hm, Option.isSome_none, Bool.false_or] at hs
          exact hs
        have hlen2 : rest.length ≤ f := by
          simpa [List.length_cons, Nat.succ_le_succ_iff] using hlen
        simp only [subTsGo, hm, issub, Bool.or_eq_true]
        exact Or.inr (ih rest hlen2 hrest)

/-- A head match of the t_s token regex starts with the literal t_s. -/
theorem matchTsTok_isPrefixTs {cs : List Char} {n : Nat} (h : matchTsTok cs = some n) :
    "t_s".data.isPrefixOf cs = true := by
  by_cases hp : "t_s".data.isPrefixOf cs = true
  · exact hp
  · rw [matchTsTok, if_neg hp] at h
    exact absurd h (by simp)

/-- A t_s token occurrence implies a t_s literal occurrence. -/
theorem issub_ts_of_hasTsTok : ∀ {cs : List Char}, hasTsTok cs = true →
    issub "t_s".data cs = true := by
  intro cs
  induction cs with
  | nil => intro h; simp [hasTsTok] at h
  | cons c rest ih =>
    intro h
    simp only [hasTsTok, Bool.or_eq_true, Option.isSome_iff_exists] at h
    rcases h with ⟨n, hn⟩ | h
    · exact issub_of_isPrefixOf (matchTsTok_isPrefixTs hn)
    · simp only [issub, Bool.or_eq_true]
      exact Or.inr (ih h)

/-- Without a recognized token the string-level substitution is the
identity. -/
theorem subTs_eq_self {rep src : String} (h : hasTsTok src.data = false) : subTs rep src = src := by
  rw [subTs, subTsGo_id rep.data src.data.length src.data h, strMk_data]

/-- With a token present the substituted string contains the replacement. -/
theorem pyIn_subTs {rep src : String} (h : hasTsTok src.data = true) :
    pyIn rep (subTs rep src) = true := by
  rw [subTs, pyIn]
  exact subTsGo_emits rep.data src.data.length src.data (Nat.le_refl _) h

/-- Without a recognized token every upgrade attempt leaves the string
unchanged. -/
theorem tryUpgrades_id (src : String) (h : hasTsTok src.data = false) :
    ∀ szs : List String, tryUpgrades szs src = src := by
  intro szs
  induction szs with
  | nil => rfl
  | cons sz rest ih =>
    rw [tryUpgrades]
    simp [subTs_eq_self h, ih]

/-! ### Claim theorems -/

/-- C7: _is_content_image is false for every URL containing icon, logo or
avatar, whatever other tokens the URL contains: the exclusion scan runs
before every inclusion check and returns false immediately. -/
theorem C7_exclusion_precedence (url : String)
    (h : pyIn "icon" url = true ∨ pyIn "logo" url = true ∨ pyIn "avatar" url = true) :
    _is_content_image url = false := by
  have hany : (exclude_patterns.any fun p => pyIn p (pyLower url)) = true := by
    rw [List.any_eq_true]
    rcases h with h | h | h
    · exact ⟨"icon", by simp [exclude_patterns], pyIn_lower_of_pyIn (by decide) h⟩
    · exact ⟨"logo", by simp [exclude_patterns], pyIn_lower_of_pyIn (by decide) h⟩
    · exact ⟨"avatar", by simp [exclude_patterns], pyIn_lower_of_pyIn (by decide) h⟩
  rw [_is_content_image, if_pos hany]

/-- C7 witness: a URL holding the exclusion token icon next to several
inclusion tokens is still rejected. -/
theorem C7_exclusion_precedence_witness :
    pyIn "icon" "https://x/icon-photo-big-image.jpg" = true ∧
    _is_content_image "https://x/icon-photo-big-image.jpg" = false :=
  ⟨by decide, C7_exclusion_precedence "https://x/icon-photo-big-image.jpg" (Or.inl (by decide))⟩

/-- C9: the size-token rewrite of _get_valid_image_src substitutes the larger
tokens trying the largest first, keeping the first substitution that differs:
a URL with no recognized t_s size token comes back unchanged, a URL holding a
small token and none of the already-large markers receives the t_s1000x
substitution (which always differs and plants the larger token), and the
concrete example from the spec upgrades t_s400x300 to t_s1000x. -/
theorem C9_upgrade_resolution :
    (∀ src : String, hasTsTok src.data = false → upgradeResolutionTs src = src) ∧
    (∀ src : String, hasTsTok src.data = true →
      pyIn "t_s800" src = false → pyIn "t_s1000" src = false → pyIn "t_s2000" src = false →
      upgradeResolutionTs src = subTs "t_s1000x" src ∧
      pyIn "t_s1000x" (upgradeResolutionTs src) = true) ∧
    upgradeResolutionTs "https://x/t_s400x300.jpg" = "https://x/t_s1000x.jpg" := by
  refine ⟨?_, ?_, by decide⟩
  · intro src h
    rw [upgradeResolutionTs]
    split
    · exact tryUpgrades_id src h _
    · rfl
  · intro src h h800 h1000 h2000
    have hts : pyIn "t_s" src = true := issub_ts_of_hasTsTok h
    have hcond : (pyIn "t_s" src &&
        !(pyIn "t_s800" src || pyIn "t_s1000" src || pyIn "t_s2000" src)) = true := by
      rw [hts, h800, h1000, h2000]
      rfl
    have hne : subTs "t_s1000x" src ≠ src := by
      intro heq
      have hx : pyIn "t_s1000x" src = true := by
        have := @pyIn_subTs "t_s1000x" src h
        rwa [heq] at this
      have : issub ("t_s1000".data ++ ['x']) src.data = true := by
        have hdata : "t_s1000x".data = "t_s1000".data ++ ['x'] := by decide
        rw [pyIn, hdata] at hx
        exact hx
      have : pyIn "t_s1000" src = true := issub_mono_pat this
      rw [h1000] at this
      exact absurd this (by simp)
    have hres : upgradeResolutionTs src = subTs "t_s1000x" src := by
      rw [upgradeResolutionTs, if_pos hcond, tryUpgrades, if_pos hne]
    exact ⟨hres, by rw [hres]; exact pyIn_subTs h⟩

/-- C9 witness: the unchanged case at a token-free URL and the substitution
case at the concrete small-token URL. -/
theorem C9_upgrade_resolution_witness :
    upgradeResolutionTs "https://x/plain.jpg" = "https://x/plain.jpg" ∧
    upgradeResolutionTs "https://x/t_s400x300.jpg" = subTs "t_s1000x" "https://x/t_s400x300.jpg" :=
  ⟨C9_upgrade_resolution.1 "https://x/plain.jpg" (by decide),
   (C9_upgrade_resolution.2.1 "https://x/t_s400x300.jpg" (by decide) (by decide) (by decide)
     (by decide)).1⟩

/-- C8 counterexample: the claim as stated fails twice on the code.  The URL
t_s300x50 encodes a dimension of at least 300 on one axis and matches no
exclusion token, yet the predicate returns false, because the minimum-
dimension test fires first on the 50.  Conversely the URL ChMk/t_s110x110
encodes a pair entirely below the minimum dimension 120, yet the predicate
returns true, because the site-specific marker check precedes the size
extraction. -/
theorem C8_claim_counterexample :
    (findSize "https://a/t_s300x50.jpg".data = some (300, 50) ∧
     aspect_ratio_patterns.all (fun p => !pyIn p "https://a/t_s300x50.jpg") = true ∧
     hq_small_size_patterns.all (fun p => !pyIn p "https://a/t_s300x50.jpg") = true ∧
     low_quality_patterns.all (fun p => !pyIn p (pyLower "https://a/t_s300x50.jpg")) = true ∧
     _is_high_quality_image "https://a/t_s300x50.jpg" = false) ∧
    (findSize "https://a/ChMk/t_s110x110.jpg".data = some (110, 110) ∧
     _is_high_quality_image "https://a/ChMk/t_s110x110.jpg" = true) := by
  decide

/-- C8 amended: the concrete cases hold (an encoded 100x100 is rejected, an
encoded 400x300 is accepted), and the general thresholds hold with the
precedence the code implements: a first encoded pair below the minimum
dimension 120 forces false provided the URL carries no site-specific
high-resolution marker (ChMk or /M00/), and an encoded pair with both
dimensions at least 120 and one of at least 300 forces true provided no
exclusion pattern matches. -/
theorem C8_quality_thresholds :
    _is_high_quality_image "https://a/t_s100x100.jpg" = false ∧
    _is_high_quality_image "https://a/t_s400x300.jpg" = true ∧
    (∀ (url : String) (w h : Nat), pyIn "ChMk" url = false → pyIn "/M00/" url = false →
      findSize url.data = some (w, h) → (w < 120 ∨ h < 120) →
      _is_high_quality_image url = false) ∧
    (∀ (url : String) (w h : Nat),
      (aspect_ratio_patterns.any fun p => pyIn p url) = false →
      (hq_small_size_patterns.any fun p => pyIn p url) = false →
      (low_quality_patterns.any fun p => pyIn p (pyLower url)) = false →
      findSize url.data = some (w, h) → 120 ≤ w → 120 ≤ h → (300 ≤ w ∨ 300 ≤ h) →
      _is_high_quality_image url = true) := by
  refine ⟨by decide, by decide, ?_, ?_⟩
  · intro url w h hchmk hm00 hfs hlt
    rw [_is_high_quality_image]
    split
    · rfl
    split
    · rfl
    split
    · rfl
    rw [hchmk, hm00]
    simp only [Bool.or_self, Bool.false_eq_true, if_false, hfs]
    have : (decide (w < 120) || decide (h < 120)) = true := by
      rcases hlt with h1 | h1 <;> simp [h1]
    simp [this]
  · intro url w h hasp hsmall hlow hfs hw hh h300
    rw [_is_high_quality_image]
    rw [hasp, hsmall, hlow]
    simp only [Bool.false_eq_true, if_false]
    split
    · rfl
    have hlt : (decide (w < 120) || decide (h < 120)) = false := by
      simp only [Bool.or_eq_false_iff, decide_eq_false_iff_not, Nat.not_lt]
      exact ⟨hw, hh⟩
    have hsq : hqNearSquare w h = false := by
      rw [hqNearSquare]
      rcases h300 with h1 | h1
      · have : ¬(w < 200) := by omega
        simp [this]
      · by_cases hw200 : w < 200
        · have hwh : w ≤ h := by omega
          have : ¬(10 * max w h ≤ 11 * min w h) := by
            rw [Nat.max_eq_right hwh, Nat.min_eq_left hwh]
            omega
          simp [this]
        · simp [hw200]
    have h300b : (decide (300 ≤ w) || decide (300 ≤ h)) = true := by
      rcases h300 with h1 | h1 <;> simp [h1]
    simp [hfs, hlt, hsq, h300b]

/-- C8 witness: the below-minimum branch at a concrete marker-free URL and
the large-dimension branch at a concrete exclusion-free URL. -/
theorem C8_quality_thresholds_witness :
    _is_high_quality_image "https://b/t_s90x400.jpg" = false ∧
    _is_high_quality_image "https://b/t_s500x400.jpg" = true :=
  ⟨C8_quality_thresholds.2.2.1 "https://b/t_s90x400.jpg" 90 400 (by decide) (by decide)
     (by decide) (Or.inl (by decide)),
   C8_quality_thresholds.2.2.2 "https://b/t_s500x400.jpg" 500 400 (by decide) (by decide)
     (by decide) (by decide) (by decide) (by decide) (Or.inl (by decide))⟩

/-- Spelling out what a false invalid-URL verdict guarantees. -/
theorem invalid_false_parts {s : String} (h : _is_invalid_url s = false) :
    s ≠ "" ∧ pyStartsWith s "data:" = false ∧ pyIn "\x7b\x7b" s = false ∧
    pyIn "\x7d\x7d" s = false ∧ s ≠ "none" ∧ s ≠ "undefined" ∧ s ≠ "null" := by
  rw [_is_invalid_url] at h
  split at h
  · simp at h
  split at h
  · simp at h
  split at h
  · simp at h
  split at h
  · simp at h
  rename_i h1 h2 h3 h4
  have h2b : pyStartsWith s "data:" = false := by simpa using h2
  have h3b : pyIn "\x7b\x7b" s = false ∧ pyIn "\x7d\x7d" s = false := by
    simp only [Bool.or_eq_true, not_or, Bool.not_eq_true] at h3
    exact h3
  have h4b : s ≠ "none" ∧ s ≠ "undefined" ∧ s ≠ "null" := by
    simp only [Bool.or_eq_true, decide_eq_true_eq, not_or] at h4
    exact ⟨h4.1.1, h4.1.2, h4.2⟩
  exact ⟨h1, h2b, h3b.1, h3b.2, h4b.1, h4b.2.1, h4b.2.2⟩

/-- The attribute scan only yields truthy values that pass the validity
filter. -/
theorem firstAttrCandidate_valid {img : Node} {s : String}
    (h : firstAttrCandidate img = some s) : s ≠ "" ∧ _is_invalid_url s = false := by
  obtain ⟨a, _, ha⟩ := List.exists_of_findSome?_eq_some h
  revert ha
  cases hg : getAttr img a with
  | none => intro ha; simp at ha
  | some v =>
    intro ha
    simp only at ha
    by_cases hv : (v ≠ "" && !_is_invalid_url v) = true
    · rw [if_pos hv] at ha
      obtain rfl : v = s := by simpa using ha
      simp only [Bool.and_eq_true, decide_eq_true_eq, Bool.not_eq_true', bne_iff_ne] at hv
      exact ⟨by simpa using hv.1, hv.2⟩
    · rw [if_neg hv] at ha
      simp at ha

/-- The background-image fallback only yields truthy values that pass the
validity filter. -/
theorem bgCandidate_valid {img : Node} {s : String}
    (h : bgCandidate img = some s) : s ≠ "" ∧ _is_invalid_url s = false := by
  rw [bgCandidate] at h
  split at h
  · split at h
    · split at h
      · dsimp only at h
        split at h
        · obtain rfl : _ = s := by simpa using h
          rename_i hguard
          simp only [Bool.and_eq_true, decide_eq_true_eq, Bool.not_eq_true'] at hguard
          exact ⟨hguard.1.1, hguard.2⟩
        · simp at h
      · simp at h
    · simp at h
  · simp at h

/-- The selected candidate of _get_valid_image_src is always truthy and
valid. -/
theorem selectedCandidate_valid {img : Node} {s : String}
    (h : selectedCandidate img = some s) : s ≠ "" ∧ _is_invalid_url s = false := by
  rw [selectedCandidate] at h
  cases hf : firstAttrCandidate img with
  | some v =>
    rw [hf] at h
    obtain rfl : v = s := by simpa using h
    exact firstAttrCandidate_valid hf
  | none =>
    rw [hf] at h
    exact bgCandidate_valid h

/-- C10 counterexample: on an img whose src attribute holds a small t_s size
token, _get_valid_image_src returns the rewritten URL, which is not the value
of any attribute of the tag, refuting the claim that the function returns the
selected attribute value itself. -/
theorem C10_rewrite_counterexample :
    imgSmallTok.attrL = [("src", "https://x/t_s400x300.jpg")] ∧
    _is_invalid_url "https://x/t_s400x300.jpg" = false ∧
    _get_valid_image_src imgSmallTok = some "https://x/t_s1000x.jpg" ∧
    (imgSmallTok.attrL.map (fun p => p.2)).contains "https://x/t_s1000x.jpg" = false := by
  decide

/-- C10 amended: _get_valid_image_src selects the value of the first
attribute among src, data-src, data-original, data-lazy-src, data-lazysrc,
data-original-src that is truthy and passes the validity filter, falling back
to a background-image URL from the style attribute, and returns that
candidate after the t_s resolution-upgrade rewrite; the selected candidate is
never empty, never a data: URI, never contains template braces, and is never
the literal none, undefined or null; when no candidate passes, the result is
None. -/
theorem C10_source_selection :
    (∀ (img : Node) (s : String), selectedCandidate img = some s →
      _get_valid_image_src img = some (upgradeResolutionTs s) ∧
      s ≠ "" ∧ pyStartsWith s "data:" = false ∧ pyIn "\x7b\x7b" s = false ∧
      pyIn "\x7d\x7d" s = false ∧ s ≠ "none" ∧ s ≠ "undefined" ∧ s ≠ "null") ∧
    (∀ img : Node, selectedCandidate img = none → _get_valid_image_src img = none) := by
  constructor
  · intro img s h
    have hv := selectedCandidate_valid h
    have hp := invalid_false_parts hv.2
    refine ⟨?_, hp.1, hp.2.1, hp.2.2.1, hp.2.2.2.1, hp.2.2.2.2.1, hp.2.2.2.2.2.1,
      hp.2.2.2.2.2.2⟩
    rw [_get_valid_image_src, h]
  · intro img h
    rw [_get_valid_image_src, h]

/-- C10 witness: the selection characterization applied to the concrete img
with a small size token, and the none case applied to an attribute-free
img. -/
theorem C10_source_selection_witness :
    _get_valid_image_src imgSmallTok
      = some (upgradeResolutionTs "https://x/t_s400x300.jpg") ∧
    _get_valid_image_src (Node.elem "img" [] []) = none :=
  ⟨(C10_source_selection.1 imgSmallTok "https://x/t_s400x300.jpg" (by decide)).1,
   C10_source_selection.2 (Node.elem "img" [] []) (by decide)⟩

/-- The retry loop exhausts exactly when the three attempts all raise. -/
theorem tryFetchLoop_none_iff (f : Nat → Option Resp) :
    tryFetchLoop f max_retries 0 = none ↔ (f 0 = none ∧ f 1 = none ∧ f 2 = none) := by
  cases h0 : f 0 <;> cases h1 : f 1 <;> cases h2 : f 2 <;>
    simp [max_retries, tryFetchLoop, h0, h1, h2]

/-- The network phase fails exactly when the three attempts all raise: the
corrective re-fetch never turns a success into a failure. -/
theorem netPhase_none_iff (env : NetEnv) :
    netPhase env = none ↔
      (env.attempt 0 = none ∧ env.attempt 1 = none ∧ env.attempt 2 = none) := by
  rw [netPhase]
  cases h : tryFetchLoop env.attempt max_retries 0 with
  | none => simpa using (tryFetchLoop_none_iff env.attempt).mp h
  | some resp =>
    have h2 : ¬(env.attempt 0 = none ∧ env.attempt 1 = none ∧ env.attempt 2 = none) := by
      intro hall
      rw [(tryFetchLoop_none_iff env.attempt).mpr hall] at h
      cases h
    constructor
    · intro hb
      exfalso
      revert hb
      dsimp only
      split
      · split
        · split <;> simp
        · simp
      · simp
    · intro hall
      exact absurd hall h2

/-- C1: fetch_article_data returns None exactly when the network fetch fails
on all three attempts or an unexpected parse exception occurs; when the fetch
succeeds and no parse exception occurs, a full record is returned, with an
unresolved title degrading to the sentinel string and an unresolved body
degrading to the placeholder markup inside the returned record, as the
evaluation on a bare page shows. -/
theorem C1_failure_policy :
    (∀ (env : NetEnv) (url : String),
      fetch_article_data env url = none ↔
        (env.attempt 0 = none ∧ env.attempt 1 = none ∧ env.attempt 2 = none) ∨
        env.parseRaises = true) ∧
    (∀ (env : NetEnv) (url : String), env.parseRaises = false →
      ¬(env.attempt 0 = none ∧ env.attempt 1 = none ∧ env.attempt 2 = none) →
      ∃ rec : ArticleRecord, fetch_article_data env url = some rec) ∧
    parse_article docBare "u" "f"
      = ⟨article_title_sentinel, content_placeholder, "u", "f", []⟩ := by
  refine ⟨?_, ?_, by decide⟩
  · intro env url
    rw [fetch_article_data]
    cases hn : netPhase env with
    | none =>
      have hall := (netPhase_none_iff env).mp hn
      simp [hall]
    | some r =>
      have hne : ¬(env.attempt 0 = none ∧ env.attempt 1 = none ∧ env.attempt 2 = none) :=
        fun hall => by rw [(netPhase_none_iff env).mpr hall] at hn; cases hn
      cases hb : env.parseRaises <;> simp [hb, hne]
  · intro env url hp hne
    cases hn : netPhase env with
    | none => exact absurd ((netPhase_none_iff env).mp hn) hne
    | some r =>
      rw [fetch_article_data]
      rw [hn]
      simp [hp]

/-- C1 witness: the all-attempts-fail environment yields None, and the
one-success environment yields a record. -/
theorem C1_failure_policy_witness :
    fetch_article_data envAllFail "u" = none ∧
    ∃ rec : ArticleRecord,
      fetch_article_data envRelImg "https://m.zol.com.cn/a/1.html" = some rec :=
  ⟨(C1_failure_policy.1 envAllFail "u").mpr (Or.inl ⟨rfl, rfl, rfl⟩),
   C1_failure_policy.2.1 envRelImg "https://m.zol.com.cn/a/1.html" rfl
     (fun hall => absurd hall.1 (by simp [envRelImg]))⟩

/-- C3: evaluation of the corrective-re-fetch scenario at the failing input.
The initial fetch lands on the desktop host and the corrective fetch
completes with status 404: the code then parses the corrective 404 body (the
page titled corr) rather than the kept original response (the page titled
orig), because the response variable is reassigned before its status is
tested, while the recorded final URL stays the desktop one.  Exactly one
corrective request is issued. -/
theorem C3_corrective_refetch_bug :
    (netPhase envCorr404).map (fun r => (r.2.1, r.2.2))
      = some ("https://news.zol.com.cn/a/1.html", true) ∧
    (netPhase envCorr404).map (fun r => resolveTitle r.1) = some "corr" ∧
    (fetch_article_data envCorr404 "https://m.zol.com.cn/a/1.html").map (fun r => r.title)
      = some "corr" ∧
    (fetch_article_data envCorr404 "https://m.zol.com.cn/a/1.html").map (fun r => r.final_url)
      = some "https://news.zol.com.cn/a/1.html" ∧
    resolveTitle docOrig = "orig" := by
  decide

/-- When no structural title selector matches, the selector scan yields
nothing. -/
theorem titleSelectors_none {doc : List Node}
    (h : (article_title_selectors.all fun s => (selectOne doc s).isNone) = true) :
    article_title_selectors.findSome? (fun s => selectOne doc s) = none := by
  rw [List.findSome?_eq_none_iff]
  intro s hs
  exact Option.isNone_iff_eq_none.mp (List.all_eq_true.mp h s hs)

/-- C6 counterexample: on a page whose only title source is an empty title
element, none of the three stages yields any text, yet the resolved title is
the empty string, not the sentinel, refuting the claim that exhausting all
text sources produces the sentinel. -/
theorem C6_empty_title_counterexample :
    (article_title_selectors.all fun s => (selectOne docEmptyTitle s).isNone) = true ∧
    (selectOne docEmptyTitle ogTitleSel).isNone = true ∧
    (selectOne docEmptyTitle titleTagSel).map getTextRaw = some "" ∧
    resolveTitle docEmptyTitle = "" ∧
    resolveTitle docEmptyTitle ≠ article_title_sentinel := by
  decide

/-- C6 amended: the title is resolved through the ordered chain the code
implements.  The first matching structural selector supplies the title (its
stripped text, even when empty); on selector exhaustion a present og:title
meta supplies its trimmed content; with neither, a present title element
supplies the trimmed text before the first hyphen; and the sentinel is
returned exactly when no structural selector matches, no og:title meta
exists and no title element exists at all, rather than whenever no text was
found. -/
theorem C6_title_fallback_chain :
    (∀ (doc : List Node) (tag : Node),
      article_title_selectors.findSome? (fun s => selectOne doc s) = some tag →
      resolveTitle doc = getTextStrip tag) ∧
    (∀ (doc : List Node) (m : Node),
      (article_title_selectors.all fun s => (selectOne doc s).isNone) = true →
      selectOne doc ogTitleSel = some m →
      resolveTitle doc = pyStrip (getAttrD m "content" "")) ∧
    (∀ (doc : List Node) (t : Node),
      (article_title_selectors.all fun s => (selectOne doc s).isNone) = true →
      (selectOne doc ogTitleSel).isNone = true →
      selectOne doc titleTagSel = some t →
      resolveTitle doc = pyStrip (pySplitHead '-' (getTextRaw t))) ∧
    (∀ doc : List Node,
      (article_title_selectors.all fun s => (selectOne doc s).isNone) = true →
      (selectOne doc ogTitleSel).isNone = true →
      (selectOne doc titleTagSel).isNone = true →
      resolveTitle doc = article_title_sentinel) := by
  refine ⟨?_, ?_, ?_, ?_⟩
  · intro doc tag h
    rw [resolveTitle, h]
  · intro doc m hall hog
    rw [resolveTitle, titleSelectors_none hall, hog]
  · intro doc t hall hog ht
    rw [resolveTitle, titleSelectors_none hall, Option.isNone_iff_eq_none.mp hog, ht]
  · intro doc hall hog ht
    rw [resolveTitle, titleSelectors_none hall, Option.isNone_iff_eq_none.mp hog,
      Option.isNone_iff_eq_none.mp ht]

/-- C6 witness: the sentinel arm applied to a page with no title source, and
the structural arm applied to a page with a heading. -/
theorem C6_title_fallback_chain_witness :
    resolveTitle docBare = article_title_sentinel ∧
    resolveTitle docOrig = getTextStrip (Node.elem "h1" [("class", "title")] [.text "orig"]) :=
  ⟨C6_title_fallback_chain.2.2.2 docBare (by decide) (by decide) (by decide),
   C6_title_fallback_chain.1 docOrig (Node.elem "h1" [("class", "title")] [.text "orig"])
     rfl⟩

/-- Aborting the accumulation loop at the j-th item is the same as running it
on the first j items. -/
theorem linkLoopExn_eq_take :
    ∀ (items : List Node) (limit j : Nat) (acc : List (String × Option String)),
      linkLoopExn limit j items acc = linkLoop limit (items.take j) acc := by
  intro items
  induction items with
  | nil => intro limit j acc; simp [linkLoopExn, linkLoop]
  | cons item rest ih =>
    intro limit j acc
    cases j with
    | zero => simp [linkLoopExn, linkLoop]
    | succ j =>
      rw [List.take_succ_cons, linkLoopExn, linkLoop]
      by_cases hl : limit ≤ acc.length
      · rw [if_pos hl, if_pos hl]
      · rw [if_neg hl, if_neg hl]
        simp only [Nat.add_sub_cancel]
        cases hp : processItem item <;> exact ih limit j _

/-- C4 counterexample: with an exception injected while the second item is
processed, the call returns the one link accumulated before the exception,
not an empty result. -/
theorem C4_partial_result_counterexample :
    fetch_article_links_exn docListing 5 1
      = [("https://m.zol.com.cn/article/1.html", some "t1")] ∧
    fetch_article_links_exn docListing 5 1 ≠ [] := by
  decide

/-- C4 amended: a parse-level exception inside the item loop is caught and
the call returns exactly the links accumulated from the items processed
before the exception; the result is empty precisely in the special case
where the exception precedes the first item. -/
theorem C4_exception_partial_links (doc : List Node) (limit j : Nat) :
    fetch_article_links_exn doc limit j
      = linkLoop limit ((dedupByHref (collectItems doc)).take j) [] ∧
    (j = 0 → fetch_article_links_exn doc limit j = []) := by
  constructor
  · exact linkLoopExn_eq_take _ limit j []
  · intro hj
    rw [hj, fetch_article_links_exn]
    cases dedupByHref (collectItems doc) with
    | nil => rfl
    | cons i rest =>
      rw [linkLoopExn]
      by_cases hl : limit ≤ ([] : List (String × Option String)).length
      · rw [if_pos hl]
      · rw [if_neg hl, if_pos rfl]

/-- C4 witness: an exception before the first item yields the empty list on
the concrete listing. -/
theorem C4_exception_partial_links_witness :
    fetch_article_links_exn docListing 5 0 = [] :=
  (C4_exception_partial_links docListing 5 0).2 rfl

/-- A scheme scan that succeeds is unaffected by appending characters. -/
theorem goScheme_append_true : ∀ {cs : List Char} (t : List Char),
    goScheme cs = true → goScheme (cs ++ t) = true := by
  intro cs
  induction cs with
  | nil => intro t h; simp [goScheme] at h
  | cons c rest ih =>
    intro t h
    rw [List.cons_append]
    rw [goScheme] at h ⊢
    by_cases hc : c = ':'
    · simp [hc]
    · rw [if_neg hc] at h ⊢
      simp only [Bool.and_eq_true] at h ⊢
      exact ⟨h.1, ih t h.2⟩

/-- Scheme characters before the colon can be skipped by the scheme scan. -/
theorem goScheme_append_chars : ∀ (cs : List Char),
    (cs.all fun c => schemeChar c && decide (c ≠ ':')) = true →
    ∀ t, goScheme (cs ++ t) = goScheme t := by
  intro cs
  induction cs with
  | nil => intro _ t; rfl
  | cons c rest ih =>
    intro h t
    simp only [List.all_cons, Bool.and_eq_true, decide_eq_true_eq] at h
    rw [List.cons_append, goScheme, if_neg h.1.2]
    rw [ih (by simpa using h.2) t]
    simp [h.1.1]

/-- Syntactic absoluteness is preserved by appending characters. -/
theorem hasSchemeL_append {cs : List Char} (t : List Char) (h : hasSchemeL cs = true) :
    hasSchemeL (cs ++ t) = true := by
  cases cs with
  | nil => simp [hasSchemeL] at h
  | cons c rest =>
    rw [hasSchemeL] at h
    simp only [Bool.and_eq_true] at h
    rw [List.cons_append, hasSchemeL]
    simp [h.1, goScheme_append_true t h.2]

/-- String-level form of the previous lemma. -/
theorem hasScheme_append (pre rest : String) (h : hasScheme pre = true) :
    hasScheme (pre ++ rest) = true := by
  rw [hasScheme, String.data_append]
  exact hasSchemeL_append rest.data h

/-- The replacement scanner preserves a succeeding scheme scan when both the
pattern and the replacement consist of colon-free scheme characters. -/
theorem repGo_goScheme (pat rep : List Char)
    (hpat : (pat.all fun c => schemeChar c && decide (c ≠ ':')) = true)
    (hrep : (rep.all fun c => schemeChar c && decide (c ≠ ':')) = true) :
    ∀ (fuel : Nat) (s : List Char), goScheme s = true → goScheme (repGo pat rep fuel s) = true := by
  intro fuel
  induction fuel with
  | zero => intro s h; exact h
  | succ f ih =>
    intro s h
    cases s with
    | nil => simp [goScheme] at h
    | cons c rest =>
      rw [repGo]
      by_cases hp : pat.isPrefixOf (c :: rest) = true
      · rw [if_pos hp]
        obtain ⟨t, ht⟩ := isPrefixOf_ex hp
        rw [ht, List.drop_left]
        rw [goScheme_append_chars rep hrep]
        apply ih
        rw [ht, goScheme_append_chars pat hpat] at h
        exact h
      · rw [if_neg hp]
        rw [goScheme] at h ⊢
        by_cases hc : c = ':'
        · simp [hc]
        · rw [if_neg hc] at h ⊢
          simp only [Bool.and_eq_true] at h ⊢
          exact ⟨h.1, ih rest h.2⟩

/-- The desktop-to-mobile host replacement keeps a URL syntactically
absolute. -/
theorem repGo_hasSchemeL_news (fuel : Nat) (s : List Char) (h : hasSchemeL s = true) :
    hasSchemeL (repGo "news.zol.com.cn".data "m.zol.com.cn".data fuel s) = true := by
  cases fuel with
  | zero => exact h
  | succ f =>
    cases s with
    | nil => simp [hasSchemeL] at h
    | cons c rest =>
      rw [repGo]
      by_cases hp : "news.zol.com.cn".data.isPrefixOf (c :: rest) = true
      · rw [if_pos hp]
        obtain ⟨t, ht⟩ := isPrefixOf_ex hp
        have hgt : goScheme t = true := by
          have ht2 : c :: rest = 'n' :: ("ews.zol.com.cn".data ++ t) := ht
          have hrest : rest = "ews.zol.com.cn".data ++ t := by
            injection ht2 with _ h2
          rw [hasSchemeL, Bool.and_eq_true] at h
          have := h.2
          rwa [hrest, goScheme_append_chars "ews.zol.com.cn".data (by decide) t] at this
        rw [ht, List.drop_left]
        have hshape : "m.zol.com.cn".data
            ++ repGo "news.zol.com.cn".data "m.zol.com.cn".data f t
            = 'm' :: (".zol.com.cn".data
              ++ repGo "news.zol.com.cn".data "m.zol.com.cn".data f t) := rfl
        rw [hshape, hasSchemeL]
        simp only [Bool.and_eq_true]
        refine ⟨by decide, ?_⟩
        rw [goScheme_append_chars ".zol.com.cn".data (by decide)]
        exact repGo_goScheme _ _ (by decide) (by decide) f t hgt
      · rw [if_neg hp]
        rw [hasSchemeL] at h ⊢
        simp only [Bool.and_eq_true] at h ⊢
        exact ⟨h.1, repGo_goScheme _ _ (by decide) (by decide) f rest h.2⟩

/-- String-level form: the host rewrite keeps absoluteness. -/
theorem pyReplace_news_hasScheme {s : String} (h : hasScheme s = true) :
    hasScheme (pyReplace s "news.zol.com.cn" "m.zol.com.cn") = true := by
  rw [pyReplace, hasScheme]
  exact repGo_hasSchemeL_news s.data.length s.data h

/-- Every URL the href-resolution step produces is syntactically absolute. -/
theorem resolveHref_hasScheme (href : String) (hne : href ≠ "") :
    hasScheme (resolveHref href) = true := by
  rw [resolveHref]
  by_cases h1 : pyStartsWith href "//" = true
  · rw [if_pos h1]
    exact hasScheme_append "https:" href (by decide)
  · rw [if_neg h1]
    by_cases h2 : (pyStartsWith href "http://" || pyStartsWith href "https://") = true
    · rw [if_neg (by simp [h2])]
      rcases Bool.or_eq_true_iff.mp h2 with h3 | h3
      · obtain ⟨t, ht⟩ := isPrefixOf_ex h3
        rw [hasScheme, ht]
        exact hasSchemeL_append t (by decide)
      · obtain ⟨t, ht⟩ := isPrefixOf_ex h3
        rw [hasScheme, ht]
        exact hasSchemeL_append t (by decide)
    · rw [if_pos (by simp [h2])]
      rw [pyUrljoin]
      rw [if_neg hne]
      by_cases hs : hasScheme href = true
      · rw [if_pos hs]
        exact hs
      · rw [if_neg hs]
        by_cases hr2 : pyStartsWith href "//" = true
        · rw [if_pos hr2]
          have : schemePart site_url = "https:" := by decide
          rw [this]
          exact hasScheme_append "https:" href (by decide)
        · rw [if_neg hr2]
          by_cases hr3 : pyStartsWith href "/" = true
          · rw [if_pos hr3]
            have : schemeHostPart site_url = "https://m.zol.com.cn" := by decide
            rw [this]
            exact hasScheme_append "https://m.zol.com.cn" href (by decide)
          · rw [if_neg hr3]
            have : baseDirPart site_url = "https://m.zol.com.cn/mobile/" := by decide
            rw [this]
            exact hasScheme_append "https://m.zol.com.cn/mobile/" href (by decide)

/-- Every link the item-processing step accepts carries a syntactically
absolute URL. -/
theorem processItem_hasScheme {item : Node} {p : String × Option String}
    (h : processItem item = some p) : hasScheme p.1 = true := by
  rw [processItem] at h
  dsimp only at h
  split at h
  · split at h
    · rename_i hne _
      have hp1 : p.1 = (if pyIn "news.zol.com.cn" (resolveHref ((itemHref item).getD ""))
          = true then
            pyReplace (resolveHref ((itemHref item).getD "")) "news.zol.com.cn" "m.zol.com.cn"
          else resolveHref ((itemHref item).getD "")) := by
        have := (Option.some.injEq _ _).mp h
        rw [← this]
      rw [hp1]
      split
      · exact pyReplace_news_hasScheme (resolveHref_hasScheme _ hne)
      · exact resolveHref_hasScheme _ hne
    · exact absurd h (by simp)
  · exact absurd h (by simp)

/-- Unfolding of the accumulation loop under the limit on a rejected item. -/
theorem linkLoop_cons_none {item : Node} {rest : List Node} {limit : Nat}
    {acc : List (String × Option String)} (hl : ¬limit ≤ acc.length)
    (hp : processItem item = none) :
    linkLoop limit (item :: rest) acc = linkLoop limit rest acc := by
  rw [linkLoop, if_neg hl, hp]

/-- Unfolding of the accumulation loop under the limit on an accepted item. -/
theorem linkLoop_cons_some {item : Node} {rest : List Node} {limit : Nat}
    {acc : List (String × Option String)} {l : String × Option String}
    (hl : ¬limit ≤ acc.length) (hp : processItem item = some l) :
    linkLoop limit (item :: rest) acc = linkLoop limit rest (acc ++ [l]) := by
  rw [linkLoop, if_neg hl, hp]

/-- The limit-checked accumulation loop collects the accepted links up to the
missing count. -/
theorem linkLoop_eq : ∀ (items : List Node) (limit : Nat) (acc : List (String × Option String)),
    linkLoop limit items acc = acc ++ (items.filterMap processItem).take (limit - acc.length) := by
  intro items
  induction items with
  | nil => intro limit acc; simp [linkLoop]
  | cons item rest ih =>
    intro limit acc
    by_cases hl : limit ≤ acc.length
    · rw [linkLoop, if_pos hl, Nat.sub_eq_zero_of_le hl]
      simp
    · cases hp : processItem item with
      | none =>
        rw [linkLoop_cons_none hl hp, ih limit acc, List.filterMap_cons, hp]
      | some l =>
        rw [linkLoop_cons_some hl hp, ih limit (acc ++ [l]), List.filterMap_cons, hp]
        have hlen : (acc ++ [l]).length = acc.length + 1 := by simp
        have hsub : limit - acc.length = (limit - (acc.length + 1)) + 1 := by omega
        rw [hlen, hsub, List.take_succ_cons, List.append_assoc]
        rfl

/-- Unfolding of the deduplication loop on an href-free item. -/
theorem dedupGo_cons_none {i : Node} {rest : List Node} {seen : List String}
    (hh : itemHref i = none) : dedupGo (i :: rest) seen = dedupGo rest seen := by
  rw [dedupGo, hh]

/-- Unfolding of the deduplication loop on a fresh truthy href. -/
theorem dedupGo_cons_keep {i : Node} {rest : List Node} {seen : List String} {h0 : String}
    (hh : itemHref i = some h0) (hg : (h0 ≠ "" && !seen.contains h0) = true) :
    dedupGo (i :: rest) seen = i :: dedupGo rest (h0 :: seen) := by
  rw [dedupGo, hh]
  exact if_pos hg

/-- Unfolding of the deduplication loop on a dropped href. -/
theorem dedupGo_cons_skip {i : Node} {rest : List Node} {seen : List String} {h0 : String}
    (hh : itemHref i = some h0) (hg : ¬(h0 ≠ "" && !seen.contains h0) = true) :
    dedupGo (i :: rest) seen = dedupGo rest seen := by
  rw [dedupGo, hh]
  exact if_neg hg

/-- The deduplicated list has pairwise distinct hrefs, all fresh relative to
the seen set. -/
theorem dedupGo_nodup_fresh : ∀ (items : List Node) (seen : List String),
    ((dedupGo items seen).filterMap itemHref).Nodup ∧
    ∀ h ∈ (dedupGo items seen).filterMap itemHref, seen.contains h = false := by
  intro items
  induction items with
  | nil => intro seen; exact ⟨List.nodup_nil, by simp [dedupGo]⟩
  | cons i rest ih =>
    intro seen
    cases hh : itemHref i with
    | none => rw [dedupGo_cons_none hh]; exact ih seen
    | some h0 =>
      by_cases hg : (h0 ≠ "" && !seen.contains h0) = true
      · rw [dedupGo_cons_keep hh hg]
        simp only [Bool.and_eq_true, decide_eq_true_eq, Bool.not_eq_true'] at hg
        obtain ⟨ihn, ihf⟩ := ih (h0 :: seen)
        have hfm : (i :: dedupGo rest (h0 :: seen)).filterMap itemHref
            = h0 :: (dedupGo rest (h0 :: seen)).filterMap itemHref := by
          rw [List.filterMap_cons, hh]
        constructor
        · rw [hfm]
          rw [List.nodup_cons]
          refine ⟨fun hmem => ?_, ihn⟩
          have := ihf h0 hmem
          simp [List.contains_cons] at this
        · intro h hmem
          rw [hfm] at hmem
          rcases List.mem_cons.mp hmem with rfl | hmem2
          · exact hg.2
          · have := ihf h hmem2
            rw [List.contains_cons] at this
            exact (Bool.or_eq_false_iff.mp this).2
      · rw [dedupGo_cons_skip hh hg]
        exact ih seen

/-- Deduplication keeps the first item carrying each truthy unseen href. -/
theorem dedupGo_find : ∀ (items : List Node) (seen : List String) (h : String), h ≠ "" →
    seen.contains h = false →
    (dedupGo items seen).find? (fun i => itemHref i == some h)
      = items.find? (fun i => itemHref i == some h) := by
  intro items
  induction items with
  | nil => intros; rfl
  | cons i rest ih =>
    intro seen h hne hseen
    cases hh : itemHref i with
    | none =>
      rw [dedupGo_cons_none hh, List.find?_cons_of_neg _ (by simp [hh])]
      exact ih seen h hne hseen
    | some h0 =>
      by_cases hg : (h0 ≠ "" && !seen.contains h0) = true
      · rw [dedupGo_cons_keep hh hg]
        by_cases heq : h0 = h
        · subst heq
          rw [List.find?_cons_of_pos _ (by simp [hh]), List.find?_cons_of_pos _ (by simp [hh])]
        · rw [List.find?_cons_of_neg _ (by simp [hh, heq]),
            List.find?_cons_of_neg _ (by simp [hh, heq])]
          apply ih (h0 :: seen) h hne
          rw [List.contains_cons]
          simp only [Bool.or_eq_false_iff]
          exact ⟨by simpa using fun hx => heq hx.symm, hseen⟩
      · rw [dedupGo_cons_skip hh hg]
        have hne0 : h0 ≠ h := by
          intro heq
          subst heq
          simp only [Bool.and_eq_true, decide_eq_true_eq, Bool.not_eq_true'] at hg
          rcases Decidable.not_and_iff_or_not.mp hg with hx | hx
          · exact hx hne
          · rw [hseen] at hx
            exact hx rfl
        rw [List.find?_cons_of_neg _ (by simp [hh, hne0])]
        exact ih seen h hne hseen

/-- A list whose hrefs are pairwise distinct holds each href at most once. -/
theorem countP_href_le_one : ∀ (l : List Node), (l.filterMap itemHref).Nodup →
    ∀ h : String, l.countP (fun i => itemHref i == some h) ≤ 1 := by
  intro l
  induction l with
  | nil => intros; simp
  | cons i rest ih =>
    intro hn h
    cases hh : itemHref i with
    | none =>
      rw [List.countP_cons_of_neg _ _ (by simp [hh])]
      apply ih ?_ h
      rwa [List.filterMap_cons, hh] at hn
    | some h0 =>
      rw [List.filterMap_cons, hh, List.nodup_cons] at hn
      by_cases heq : h0 = h
      · subst heq
        rw [List.countP_cons_of_pos _ _ (by simp [hh])]
        have hzero : rest.countP (fun i => itemHref i == some h0) = 0 := by
          rw [List.countP_eq_zero]
          intro a ha hpa
          simp only [beq_iff_eq] at hpa
          exact hn.1 (List.mem_filterMap.mpr ⟨a, ha, hpa⟩)
        rw [hzero]
      · rw [List.countP_cons_of_neg _ _ (by simp [hh, heq])]
        exact ih hn.2 h

/-- C5: for every listing document and limit, link discovery returns exactly
the minimum of the limit and the number of deduplicated filtered anchors,
every returned URL is syntactically absolute, and anchors sharing one raw
href contribute exactly one surviving item, the first occurrence. -/
theorem C5_discovery_contract (doc : List Node) (limit : Nat) :
    (fetch_article_links_doc doc limit).length
        = min limit ((dedupByHref (collectItems doc)).filterMap processItem).length ∧
    (∀ p ∈ fetch_article_links_doc doc limit, hasScheme p.1 = true) ∧
    (∀ h : String, h ≠ "" →
      ((collectItems doc).find? (fun i => itemHref i == some h)).isSome = true →
      (dedupByHref (collectItems doc)).countP (fun i => itemHref i == some h) = 1 ∧
      (dedupByHref (collectItems doc)).find? (fun i => itemHref i == some h)
          = (collectItems doc).find? (fun i => itemHref i == some h)) := by
  refine ⟨?_, ?_, ?_⟩
  · rw [fetch_article_links_doc, linkLoop_eq]
    simp [List.length_take]
  · intro p hp
    rw [fetch_article_links_doc, linkLoop_eq] at hp
    simp only [List.length_nil, Nat.sub_zero, List.nil_append] at hp
    have hp2 := (List.take_sublist _ _).subset hp
    obtain ⟨item, _, hitem⟩ := List.mem_filterMap.mp hp2
    exact processItem_hasScheme hitem
  · intro h hne hsome
    have hfind : (dedupByHref (collectItems doc)).find? (fun i => itemHref i == some h)
        = (collectItems doc).find? (fun i => itemHref i == some h) :=
      dedupGo_find (collectItems doc) [] h hne rfl
    refine ⟨?_, hfind⟩
    obtain ⟨x, hx⟩ := Option.isSome_iff_exists.mp hsome
    have hxd : (dedupByHref (collectItems doc)).find? (fun i => itemHref i == some h)
        = some x := by rw [hfind, hx]
    have hmem := List.mem_of_find?_eq_some hxd
    have hpx := List.find?_some hxd
    have hpos : 0 < (dedupByHref (collectItems doc)).countP (fun i => itemHref i == some h) :=
      List.countP_pos_iff.mpr ⟨x, hmem, hpx⟩
    have hle := countP_href_le_one (dedupByHref (collectItems doc))
      (dedupGo_nodup_fresh (collectItems doc) []).1 h
    omega

/-- The guarded append preserves the image invariant. -/
theorem addIfNew_inv (cand : Option (String × String)) {imgs : List ImageRef}
    (h : ImgsInv imgs) : ImgsInv (addIfNew imgs cand) := by
  cases cand with
  | none => exact h
  | some c =>
    obtain ⟨src, alt⟩ := c
    rw [addIfNew]
    by_cases ha : imgs.any (fun i => i.src == src) = true
    · rw [if_pos ha]
      exact h
    · rw [if_neg ha]
      have hnot : src ∉ imgs.map ImageRef.src := by
        intro hmem
        obtain ⟨i, hi, hisrc⟩ := List.mem_map.mp hmem
        exact ha (List.any_eq_true.mpr ⟨i, hi, by simp [hisrc]⟩)
      constructor
      · rw [List.map_append, List.nodup_append]
        refine ⟨h.1, by simp, ?_⟩
        intro x hx hx2
        simp only [List.map_cons, List.map_nil, List.mem_singleton] at hx2
        subst hx2
        exact hnot hx
      · rw [List.map_append, List.length_append]
        simp only [List.map_cons, List.map_nil, List.length_cons, List.length_nil]
        rw [h.2, ← List.range_succ]

/-- Any fold whose step preserves the image invariant preserves it. -/
theorem foldl_inv {α : Type} (step : List ImageRef → α → List ImageRef)
    (hstep : ∀ (acc : List ImageRef) (x : α), ImgsInv acc → ImgsInv (step acc x)) :
    ∀ (xs : List α) (acc : List ImageRef), ImgsInv acc → ImgsInv (xs.foldl step acc) := by
  intro xs
  induction xs with
  | nil => intro acc h; exact h
  | cons x rest ih =>
    intro acc h
    exact ih (step acc x) (hstep acc x h)

/-- The empty accumulator satisfies the invariant. -/
theorem imgsInv_nil : ImgsInv [] := ⟨List.nodup_nil, rfl⟩

/-- A single image with order zero satisfies the invariant. -/
theorem imgsInv_single (src alt : String) : ImgsInv [⟨src, 0, alt⟩] := ⟨by simp, rfl⟩

/-- The og:image stage preserves the invariant. -/
theorem ogImageStage_inv {doc : List Node} {t f : String} {acc : List ImageRef}
    (h : ImgsInv acc) : ImgsInv (ogImageStage doc t f acc) := by
  rw [ogImageStage]
  split
  · dsimp only
    split
    · exact addIfNew_inv _ h
    · exact h
  · exact h

/-- The primary-image stage preserves the invariant. -/
theorem mainImgsStage_inv {cd : Node} {t f : String} {acc : List ImageRef}
    (h : ImgsInv acc) : ImgsInv (mainImgsStage cd t f acc) :=
  foldl_inv _ (fun _acc img h2 => addIfNew_inv (mainCand img t f) h2) _ acc h

/-- The remaining-image stage preserves the invariant. -/
theorem otherImgsStage_inv {cd : Node} {t f : String} {acc : List ImageRef}
    (h : ImgsInv acc) : ImgsInv (otherImgsStage cd t f acc) :=
  foldl_inv _ (fun _acc img h2 => addIfNew_inv (otherCand img t f) h2) _ acc h

/-- The src-anchor stage preserves the invariant. -/
theorem srcAnchorStage_inv {cd : Node} {t : String} {acc : List ImageRef}
    (h : ImgsInv acc) : ImgsInv (srcAnchorStage cd t acc) :=
  foldl_inv _ (fun _acc a h2 => addIfNew_inv (anchorCand a t) h2) _ acc h

/-- The script stage preserves the invariant. -/
theorem scriptStage_inv {doc : List Node} {t : String} {acc : List ImageRef}
    (h : ImgsInv acc) : ImgsInv (scriptStage doc t acc) := by
  refine foldl_inv _ ?_ _ acc h
  intro acc2 sc h2
  cases hs : scriptString sc with
  | none => exact h2
  | some txt =>
    dsimp only
    split
    · exact foldl_inv _ (fun _acc g h3 => addIfNew_inv (scriptCand g t) h3) _ acc2 h2
    · exact h2

/-- The page-wide 5a scan yields an invariant-satisfying list. -/
theorem zolScan_inv (t f : String) : ∀ imgs : List Node, ImgsInv (zolScan t f imgs) := by
  intro imgs
  induction imgs with
  | nil => exact imgsInv_nil
  | cons img rest ih =>
    rw [zolScan]
    cases zolCand img t f with
    | some c => exact imgsInv_single c.1 c.2
    | none => exact ih

/-- The page-wide 5b scan yields an invariant-satisfying list. -/
theorem lastResortScan_inv (t f : String) :
    ∀ imgs : List Node, ImgsInv (lastResortScan t f imgs) := by
  intro imgs
  induction imgs with
  | nil => exact imgsInv_nil
  | cons img rest ih =>
    rw [lastResortScan]
    cases lastResortCand img t f with
    | some c => exact imgsInv_single c.1 c.2
    | none => exact ih

/-- Stage 5 yields an invariant-satisfying list. -/
theorem pageWideStage_inv (doc : List Node) (t f : String) :
    ImgsInv (pageWideStage doc t f) := by
  rw [pageWideStage]
  split
  · exact lastResortScan_inv t f _
  · exact zolScan_inv t f _

/-- Renumbering keeps the sources. -/
theorem renumberFrom_map_src : ∀ (n : Nat) (l : List ImageRef),
    (renumberFrom n l).map ImageRef.src = l.map ImageRef.src := by
  intro n l
  induction l generalizing n with
  | nil => rfl
  | cons r rest ih => simp [renumberFrom, ih]

/-- Renumbering writes consecutive orders. -/
theorem renumberFrom_map_order : ∀ (n : Nat) (l : List ImageRef),
    (renumberFrom n l).map ImageRef.order = List.range' n l.length := by
  intro n l
  induction l generalizing n with
  | nil => rfl
  | cons r rest ih => simp [renumberFrom, ih, List.range']

/-- Renumbering keeps the length. -/
theorem renumberFrom_length : ∀ (n : Nat) (l : List ImageRef),
    (renumberFrom n l).length = l.length := by
  intro n l
  induction l generalizing n with
  | nil => rfl
  | cons r rest ih => simp [renumberFrom, ih]

/-- The truncation step emits at most five images with distinct sources and
dense orders from zero. -/
theorem capFive_props {l : List ImageRef} (h : ImgsInv l) :
    (capFive l).length ≤ 5 ∧ ((capFive l).map ImageRef.src).Nodup ∧
    (capFive l).map ImageRef.order = List.range (capFive l).length := by
  rw [capFive]
  by_cases h5 : 5 < l.length
  · rw [if_pos h5]
    have hlen : (renumberFrom 0 (l.take 5)).length = 5 := by
      rw [renumberFrom_length, List.length_take]
      omega
    refine ⟨by omega, ?_, ?_⟩
    · rw [renumberFrom_map_src, List.map_take]
      exact ((l.map ImageRef.src).take_sublist 5).nodup h.1
    · rw [renumberFrom_map_order, hlen, List.length_take]
      rw [List.range_eq_range']
      congr 1
      omega
  · rw [if_neg h5]
    exact ⟨by omega, h.1, h.2⟩

/-- The whole image-collection pipeline emits at most five images with
pairwise distinct sources and orders running densely from zero. -/
theorem collectImages_props (doc : List Node) (cd : Option Node) (t f : String) :
    (collectImages doc cd t f).length ≤ 5 ∧
    ((collectImages doc cd t f).map ImageRef.src).Nodup ∧
    (collectImages doc cd t f).map ImageRef.order
        = List.range (collectImages doc cd t f).length := by
  cases cd with
  | none =>
    rw [collectImages.eq_def]
    dsimp only
    apply capFive_props
    split
    · exact pageWideStage_inv doc t f
    · exact scriptStage_inv (ogImageStage_inv imgsInv_nil)
  | some cdd =>
    rw [collectImages.eq_def]
    dsimp only
    apply capFive_props
    split
    · exact pageWideStage_inv doc t f
    · exact scriptStage_inv (srcAnchorStage_inv (otherImgsStage_inv (mainImgsStage_inv
        (ogImageStage_inv imgsInv_nil))))

/-- C2 counterexample: fetch_article_data can return a record whose only
image src is the relative string pic/ChMk1.jpg, carrying no scheme, because
the src-anchor stage only prefixes a scheme onto values starting with a
slash and never joins against the base URL.  This refutes the claim that
every src in a returned record is an absolute URL. -/
theorem C2_absolute_src_counterexample :
    (fetch_article_data envRelImg "https://m.zol.com.cn/a/1.html").map
        (fun r => r.images.map (fun i => (i.src, hasScheme i.src)))
      = some [("pic/ChMk1.jpg", false)] := by
  decide

/-- C2 amended: in every ArticleRecord returned by fetch_article_data, the
images list has at most five entries, its src values are pairwise distinct,
and its order fields are dense and contiguous starting at zero, renumbered
after any truncation.  The absoluteness of every src does not hold: srcs
collected through the normalization helper are absolute, but a src taken
from an anchor src fragment is only scheme-prefixed when it starts with a
slash and may remain relative. -/
theorem C2_images_invariants (env : NetEnv) (url : String) (r : ArticleRecord)
    (h : fetch_article_data env url = some r) :
    r.images.length ≤ 5 ∧ (r.images.map ImageRef.src).Nodup ∧
    r.images.map ImageRef.order = List.range r.images.length := by
  rw [fetch_article_data] at h
  cases hn : netPhase env with
  | none =>
    rw [hn] at h
    simp at h
  | some rr =>
    rw [hn] at h
    cases hb : env.parseRaises with
    | true =>
      rw [hb] at h
      simp at h
    | false =>
      rw [hb] at h
      simp only [Bool.false_eq_true, if_false, Option.some.injEq] at h
      have himages : r.images = collectImages rr.1
          ((resolveContentDiv rr.1).map pruneAds)
          (resolveTitle rr.1) rr.2.1 := by
        rw [← h]
        rfl
      rw [himages]
      exact collectImages_props _ _ _ _

/-- C2 witness: the invariants read off the record returned for the concrete
environment. -/
theorem C2_images_invariants_witness :
    ∃ r : ArticleRecord,
      fetch_article_data envRelImg "https://m.zol.com.cn/a/1.html" = some r ∧
      (r.images.length ≤ 5 ∧ (r.images.map ImageRef.src).Nodup ∧
        r.images.map ImageRef.order = List.range r.images.length) :=
  ⟨_, rfl, C2_images_invariants envRelImg "https://m.zol.com.cn/a/1.html" _ rfl⟩

/-- C5 witness: the contract applied to the concrete listing with limit
one. -/
theorem C5_discovery_contract_witness :
    (fetch_article_links_doc docListing 1).length
        = min 1 ((dedupByHref (collectItems docListing)).filterMap processItem).length ∧
    hasScheme "https://m.zol.com.cn/article/1.html" = true ∧
    (dedupByHref (collectItems docListing)).countP
        (fun i => itemHref i == some "https://m.zol.com.cn/article/1.html") = 1 :=
  ⟨(C5_discovery_contract docListing 1).1,
   (C5_discovery_contract docListing 1).2.1 ("https://m.zol.com.cn/article/1.html", some "t1")
     (by decide),
   ((C5_discovery_contract docListing 1).2.2 "https://m.zol.com.cn/article/1.html"
     (by decide) (by decide)).1⟩

end ZolSpec
